import Mathlib

/-! # lumin: highlighting of pattern matches in text lines

A shallow embedding of `lumin.go` (the line highlighter `luminLine` with its
helper `colorize`, the stream driver `luminStream`, `setColor`, `getoptify` and
the two parts of `main`) and of `pkg/colors/colors.go` (resolution of colour
names to ANSI escape sequences), followed by theorems about them.

Conventions of the embedding:

* A Go `string` is a finite sequence of bytes and is indexed by byte offsets.
  It is embedded as a list with one element per byte (`GoString`).  None of
  the embedded functions looks inside a byte except to compare it with an
  ASCII character.
* Go's `int` is embedded as `Int`.  The only arithmetic the embedded code does
  on integers is masking with `2^k - 1`, written `% 2^k`.
* A run-time panic of the Go program is an `Except.error` carrying the kind of
  panic; a normal return is `Except.ok`.
* What the Go standard library does (`strconv.Atoi`, `strings.Split`,
  `bufio.Scanner`, the two regular expressions of `getoptify`) is embedded as
  a definition that says in its comment what it stands for; `regexp.Compile`,
  the compiled matcher and `argf.Open` are parameters.
-/

namespace Lumin

set_option maxRecDepth 4096

/-- A Go string: a sequence of bytes, one list element per byte. -/
abbrev GoString := List Char

/-- The run-time panics that the embedded code can raise. -/
inductive GoPanic where
  | sliceBoundsOutOfRange
  | nilPointerDereference
  deriving DecidableEq, Repr

deriving instance DecidableEq for Except

/-- The Go slice expression `s[lo:hi]` on a string: it panics unless
`0 <= lo <= hi <= len(s)`. -/
def slice (s : GoString) (lo hi : Int) : Except GoPanic GoString :=
  if 0 ≤ lo ∧ lo ≤ hi ∧ hi ≤ (s.length : Int) then
    .ok ((s.drop lo.toNat).take (hi.toNat - lo.toNat))
  else
    .error .sliceBoundsOutOfRange

/-- The Go slice expression `s[lo:]`, which is `s[lo:len(s)]`. -/
def sliceFrom (s : GoString) (lo : Int) : Except GoPanic GoString :=
  slice s lo (s.length : Int)

/-! ## `pkg/colors/colors.go`: the end marker -/

/-- `colors.DefaultColorString = "\033[0m"`: escape sequence to end colorization. -/
def DefaultColorString : GoString := "\x1b[0m".data

/-! ## `lumin.go`: the line highlighter -/

/-- A compiled `regexp.Regexp`, seen through the one method `luminLine` calls:
`FindAllStringIndex(input, -1)`.  The result `none` is Go's `nil` slice (what
the library returns when there is no match); each element of the matrix is a
two-element slice `[start end]`, embedded as a pair. -/
abbrev Regexp := GoString → Option (List (Int × Int))

/-- `colorize`: the global `highlightStartString` is passed explicitly. -/
def colorize (highlightStartString : GoString) (input : GoString) : GoString :=
  highlightStartString ++ input ++ DefaultColorString

/-- The `for _, startEnd := range matrix` loop of `luminLine` together with the
final `buffer.WriteString(input[nonMatchStartIndex:])`; the loop state is the
cursor `nonMatchStartIndex` and the contents of `buffer`. -/
def luminLoop (highlightStartString input : GoString) :
    List (Int × Int) → Int → GoString → Except GoPanic GoString
  | [], nonMatchStartIndex, buffer => do
    let rest ← sliceFrom input nonMatchStartIndex
    pure (buffer ++ rest)
  | startEnd :: matrix, nonMatchStartIndex, buffer => do
    let unmatched ← slice input nonMatchStartIndex startEnd.1
    let matched ← slice input startEnd.1 startEnd.2
    luminLoop highlightStartString input matrix startEnd.2
      (buffer ++ unmatched ++ colorize highlightStartString matched)

/-- `luminLine(regex, input)`.  The pointer `regex` may be `nil` (`none`), in
which case the method call dereferences a nil pointer. -/
def luminLine (highlightStartString : GoString) (regex : Option Regexp)
    (input : GoString) : Except GoPanic GoString :=
  match regex with
  | none => .error .nilPointerDereference
  | some re =>
    match re input with
    | none => .ok input
    | some [] => .ok input
    | some matrix => luminLoop highlightStartString input matrix 0 []

/-! ## Specification-side notions for the highlighter -/

/-- The precondition on the matcher's intervals for a line of length `n`:
every interval satisfies `0 <= s <= e <= n` and consecutive intervals satisfy
`e_i <= s_(i+1)`. -/
def WellFormed (n : Int) (ivs : List (Int × Int)) : Prop :=
  (∀ iv ∈ ivs, 0 ≤ iv.1 ∧ iv.1 ≤ iv.2 ∧ iv.2 ≤ n) ∧
    List.Chain' (fun a b : Int × Int => a.2 ≤ b.1) ivs

/-- Consecutive intervals do not overlap: a decision procedure that evaluates. -/
def decideOrdered :
    (ivs : List (Int × Int)) → Decidable (List.Chain' (fun a b : Int × Int => a.2 ≤ b.1) ivs)
  | [] => isTrue List.chain'_nil
  | [a] => isTrue (List.chain'_singleton a)
  | a :: b :: rest =>
    have : Decidable (List.Chain' (fun a b : Int × Int => a.2 ≤ b.1) (b :: rest)) :=
      decideOrdered (b :: rest)
    decidable_of_iff (a.2 ≤ b.1 ∧ List.Chain' (fun a b : Int × Int => a.2 ≤ b.1) (b :: rest))
      ⟨fun h => List.chain'_cons.mpr h, fun h => List.chain'_cons.mp h⟩

instance (n : Int) (ivs : List (Int × Int)) : Decidable (WellFormed n ivs) :=
  have : Decidable (List.Chain' (fun a b : Int × Int => a.2 ≤ b.1) ivs) := decideOrdered ivs
  inferInstanceAs (Decidable ((∀ iv ∈ ivs, 0 ≤ iv.1 ∧ iv.1 ≤ iv.2 ∧ iv.2 ≤ n) ∧
    List.Chain' (fun a b : Int × Int => a.2 ≤ b.1) ivs))

/-- The substring `L[a:b]` of the specification, as a total function. -/
def substr (L : GoString) (a b : Int) : GoString :=
  (L.drop a.toNat).take (b.toNat - a.toNat)

/-- The text `L[pos:s1] + S + L[s1:e1] + E + L[e1:s2] + S + ... + S + L[sk:ek] + E`
of the specification: everything up to and including the last end marker. -/
def spans (L S E : GoString) : Int → List (Int × Int) → GoString
  | _, [] => []
  | pos, iv :: ivs => substr L pos iv.1 ++ S ++ substr L iv.1 iv.2 ++ E ++ spans L S E iv.2 ivs

/-- The end of the last interval, or `pos` when there is none. -/
def lastEnd : Int → List (Int × Int) → Int
  | pos, [] => pos
  | _, iv :: ivs => lastEnd iv.2 ivs

/-- The specification's expected output
`L[0:s1] + S + L[s1:e1] + E + ... + S + L[sk:ek] + E + L[ek:]`. -/
def interleave (L S E : GoString) (ivs : List (Int × Int)) : GoString :=
  spans L S E 0 ivs ++ L.drop (lastEnd 0 ivs).toNat

/-- The precondition in cursor form: the cursor is at `pos`, the intervals
still to be processed start at or after it and stay inside the line. -/
def WellFormedFrom (n : Int) : Int → List (Int × Int) → Prop
  | pos, [] => pos ≤ n
  | pos, iv :: ivs => pos ≤ iv.1 ∧ iv.1 ≤ iv.2 ∧ WellFormedFrom n iv.2 ivs

/-- The default start marker, `colors.MakeANSIEscapesFromNameUnconditionally("196")`,
written out. -/
def defaultHighlight : GoString := "\x1b[1;38;5;196m".data

/-! ## `pkg/colors/colors.go`: resolution of colour names -/

/-- `boldString = "\u001b[1m"`. -/
def boldString : GoString := "\x1b[1m".data

/-- `underlineString = "\u001b[4m"`. -/
def underlineString : GoString := "\x1b[4m".data

/-- `reversedString = "\u001b[7m"`. -/
def reversedString : GoString := "\x1b[7m".data

/-- `tNameAndCode`: an entry of the name-to-code lookup table. -/
structure tNameAndCode where
  name : GoString
  code : Int
  deriving DecidableEq

/-- `namesAndCodes`: the name-to-code lookup table, in the order of the source. -/
def namesAndCodes : List tNameAndCode := [
    tNameAndCode.mk "aqua".data 14,
    tNameAndCode.mk "aquamarine1".data 122,
    tNameAndCode.mk "aquamarine3".data 79,
    tNameAndCode.mk "black".data 0,
    tNameAndCode.mk "blue".data 12,
    tNameAndCode.mk "blue1".data 21,
    tNameAndCode.mk "blue3".data 19,
    tNameAndCode.mk "blueviolet".data 57,
    tNameAndCode.mk "cadetblue".data 72,
    tNameAndCode.mk "chartreuse1".data 118,
    tNameAndCode.mk "chartreuse2".data 112,
    tNameAndCode.mk "chartreuse3".data 70,
    tNameAndCode.mk "chartreuse4".data 64,
    tNameAndCode.mk "cornflowerblue".data 69,
    tNameAndCode.mk "cornsilk1".data 230,
    tNameAndCode.mk "cyan1".data 51,
    tNameAndCode.mk "cyan2".data 50,
    tNameAndCode.mk "cyan3".data 43,
    tNameAndCode.mk "darkblue".data 18,
    tNameAndCode.mk "darkcyan".data 36,
    tNameAndCode.mk "darkgoldenrod".data 136,
    tNameAndCode.mk "darkgreen".data 22,
    tNameAndCode.mk "darkkhaki".data 143,
    tNameAndCode.mk "darkmagenta".data 90,
    tNameAndCode.mk "darkolivegreen1".data 191,
    tNameAndCode.mk "darkolivegreen2".data 155,
    tNameAndCode.mk "darkolivegreen3".data 107,
    tNameAndCode.mk "darkorange".data 208,
    tNameAndCode.mk "darkorange3".data 130,
    tNameAndCode.mk "darkred".data 52,
    tNameAndCode.mk "darkseagreen".data 108,
    tNameAndCode.mk "darkseagreen1".data 158,
    tNameAndCode.mk "darkseagreen2".data 151,
    tNameAndCode.mk "darkseagreen3".data 115,
    tNameAndCode.mk "darkseagreen4".data 65,
    tNameAndCode.mk "darkslategray1".data 123,
    tNameAndCode.mk "darkslategray2".data 87,
    tNameAndCode.mk "darkslategray3".data 116,
    tNameAndCode.mk "darkturquoise".data 44,
    tNameAndCode.mk "darkviolet".data 128,
    tNameAndCode.mk "deeppink1".data 198,
    tNameAndCode.mk "deeppink2".data 197,
    tNameAndCode.mk "deeppink3".data 161,
    tNameAndCode.mk "deeppink4".data 125,
    tNameAndCode.mk "deepskyblue1".data 39,
    tNameAndCode.mk "deepskyblue2".data 38,
    tNameAndCode.mk "deepskyblue3".data 31,
    tNameAndCode.mk "deepskyblue4".data 23,
    tNameAndCode.mk "dodgerblue1".data 33,
    tNameAndCode.mk "dodgerblue2".data 27,
    tNameAndCode.mk "dodgerblue3".data 26,
    tNameAndCode.mk "fuchsia".data 13,
    tNameAndCode.mk "gold1".data 220,
    tNameAndCode.mk "gold3".data 142,
    tNameAndCode.mk "green".data 2,
    tNameAndCode.mk "green1".data 46,
    tNameAndCode.mk "green3".data 34,
    tNameAndCode.mk "green4".data 28,
    tNameAndCode.mk "greenyellow".data 154,
    tNameAndCode.mk "grey".data 8,
    tNameAndCode.mk "grey0".data 16,
    tNameAndCode.mk "grey100".data 231,
    tNameAndCode.mk "grey11".data 234,
    tNameAndCode.mk "grey15".data 235,
    tNameAndCode.mk "grey19".data 236,
    tNameAndCode.mk "grey23".data 237,
    tNameAndCode.mk "grey27".data 238,
    tNameAndCode.mk "grey3".data 232,
    tNameAndCode.mk "grey30".data 239,
    tNameAndCode.mk "grey35".data 240,
    tNameAndCode.mk "grey37".data 59,
    tNameAndCode.mk "grey39".data 241,
    tNameAndCode.mk "grey42".data 242,
    tNameAndCode.mk "grey46".data 243,
    tNameAndCode.mk "grey50".data 244,
    tNameAndCode.mk "grey53".data 102,
    tNameAndCode.mk "grey54".data 245,
    tNameAndCode.mk "grey58".data 246,
    tNameAndCode.mk "grey62".data 247,
    tNameAndCode.mk "grey63".data 139,
    tNameAndCode.mk "grey66".data 248,
    tNameAndCode.mk "grey69".data 145,
    tNameAndCode.mk "grey7".data 233,
    tNameAndCode.mk "grey70".data 249,
    tNameAndCode.mk "grey74".data 250,
    tNameAndCode.mk "grey78".data 251,
    tNameAndCode.mk "grey82".data 252,
    tNameAndCode.mk "grey84".data 188,
    tNameAndCode.mk "grey85".data 253,
    tNameAndCode.mk "grey89".data 254,
    tNameAndCode.mk "grey93".data 255,
    tNameAndCode.mk "honeydew2".data 194,
    tNameAndCode.mk "hotpink".data 205,
    tNameAndCode.mk "hotpink2".data 169,
    tNameAndCode.mk "hotpink3".data 132,
    tNameAndCode.mk "indianred".data 131,
    tNameAndCode.mk "indianred1".data 203,
    tNameAndCode.mk "khaki1".data 228,
    tNameAndCode.mk "khaki3".data 185,
    tNameAndCode.mk "lightcoral".data 210,
    tNameAndCode.mk "lightcyan1".data 195,
    tNameAndCode.mk "lightcyan3".data 152,
    tNameAndCode.mk "lightgoldenrod1".data 227,
    tNameAndCode.mk "lightgoldenrod2".data 186,
    tNameAndCode.mk "lightgoldenrod3".data 179,
    tNameAndCode.mk "lightgreen".data 119,
    tNameAndCode.mk "lightpink1".data 217,
    tNameAndCode.mk "lightpink3".data 174,
    tNameAndCode.mk "lightpink4".data 95,
    tNameAndCode.mk "lightsalmon1".data 216,
    tNameAndCode.mk "lightsalmon3".data 137,
    tNameAndCode.mk "lightseagreen".data 37,
    tNameAndCode.mk "lightskyblue1".data 153,
    tNameAndCode.mk "lightskyblue3".data 109,
    tNameAndCode.mk "lightslateblue".data 105,
    tNameAndCode.mk "lightslategrey".data 103,
    tNameAndCode.mk "lightsteelblue".data 147,
    tNameAndCode.mk "lightsteelblue1".data 189,
    tNameAndCode.mk "lightsteelblue3".data 146,
    tNameAndCode.mk "lightyellow3".data 187,
    tNameAndCode.mk "lime".data 10,
    tNameAndCode.mk "magenta1".data 201,
    tNameAndCode.mk "magenta2".data 165,
    tNameAndCode.mk "magenta3".data 127,
    tNameAndCode.mk "maroon".data 1,
    tNameAndCode.mk "mediumorchid".data 134,
    tNameAndCode.mk "mediumorchid1".data 171,
    tNameAndCode.mk "mediumorchid3".data 133,
    tNameAndCode.mk "mediumpurple".data 104,
    tNameAndCode.mk "mediumpurple1".data 141,
    tNameAndCode.mk "mediumpurple2".data 135,
    tNameAndCode.mk "mediumpurple3".data 97,
    tNameAndCode.mk "mediumpurple4".data 60,
    tNameAndCode.mk "mediumspringgreen".data 49,
    tNameAndCode.mk "mediumturquoise".data 80,
    tNameAndCode.mk "mediumvioletred".data 126,
    tNameAndCode.mk "mistyrose1".data 224,
    tNameAndCode.mk "mistyrose3".data 181,
    tNameAndCode.mk "navajowhite1".data 223,
    tNameAndCode.mk "navajowhite3".data 144,
    tNameAndCode.mk "navy".data 4,
    tNameAndCode.mk "navyblue".data 17,
    tNameAndCode.mk "olive".data 3,
    tNameAndCode.mk "orange1".data 214,
    tNameAndCode.mk "orange3".data 172,
    tNameAndCode.mk "orange4".data 58,
    tNameAndCode.mk "orangered1".data 202,
    tNameAndCode.mk "orchid".data 170,
    tNameAndCode.mk "orchid1".data 213,
    tNameAndCode.mk "orchid2".data 212,
    tNameAndCode.mk "palegreen1".data 121,
    tNameAndCode.mk "palegreen3".data 114,
    tNameAndCode.mk "paleturquoise1".data 159,
    tNameAndCode.mk "paleturquoise4".data 66,
    tNameAndCode.mk "palevioletred1".data 211,
    tNameAndCode.mk "pink1".data 218,
    tNameAndCode.mk "pink3".data 175,
    tNameAndCode.mk "plum1".data 219,
    tNameAndCode.mk "plum2".data 183,
    tNameAndCode.mk "plum3".data 176,
    tNameAndCode.mk "plum4".data 96,
    tNameAndCode.mk "purple".data 129,
    tNameAndCode.mk "purple3".data 56,
    tNameAndCode.mk "purple4".data 54,
    tNameAndCode.mk "red".data 9,
    tNameAndCode.mk "red1".data 196,
    tNameAndCode.mk "red3".data 124,
    tNameAndCode.mk "rosybrown".data 138,
    tNameAndCode.mk "royalblue1".data 63,
    tNameAndCode.mk "salmon1".data 209,
    tNameAndCode.mk "sandybrown".data 215,
    tNameAndCode.mk "seagreen1".data 84,
    tNameAndCode.mk "seagreen2".data 83,
    tNameAndCode.mk "seagreen3".data 78,
    tNameAndCode.mk "silver".data 7,
    tNameAndCode.mk "skyblue1".data 117,
    tNameAndCode.mk "skyblue2".data 111,
    tNameAndCode.mk "skyblue3".data 74,
    tNameAndCode.mk "slateblue1".data 99,
    tNameAndCode.mk "slateblue3".data 61,
    tNameAndCode.mk "springgreen1".data 48,
    tNameAndCode.mk "springgreen2".data 42,
    tNameAndCode.mk "springgreen3".data 35,
    tNameAndCode.mk "springgreen4".data 29,
    tNameAndCode.mk "steelblue".data 67,
    tNameAndCode.mk "steelblue1".data 75,
    tNameAndCode.mk "steelblue3".data 68,
    tNameAndCode.mk "tan".data 180,
    tNameAndCode.mk "teal".data 6,
    tNameAndCode.mk "thistle1".data 225,
    tNameAndCode.mk "thistle3".data 182,
    tNameAndCode.mk "turquoise2".data 45,
    tNameAndCode.mk "turquoise4".data 30,
    tNameAndCode.mk "violet".data 177,
    tNameAndCode.mk "wheat1".data 229,
    tNameAndCode.mk "wheat4".data 101,
    tNameAndCode.mk "white".data 15,
    tNameAndCode.mk "yellow".data 11,
    tNameAndCode.mk "yellow1".data 226,
    tNameAndCode.mk "yellow2".data 190,
    tNameAndCode.mk "yellow3".data 148,
    tNameAndCode.mk "yellow4".data 100
  ]

/-- A decimal digit byte, `'0'` to `'9'`. -/
def isDigit (c : Char) : Bool := decide ('0'.toNat ≤ c.toNat ∧ c.toNat ≤ '9'.toNat)

/-- The value of a string of decimal digits, most significant digit first. -/
def decimalValue (ds : GoString) : Nat :=
  ds.foldl (fun n c => 10 * n + (c.toNat - '0'.toNat)) 0

/-- The part of `strconv.Atoi` after the optional sign: one or more decimal
digits, whose value must fit Go's 64-bit `int`; `none` stands for a non-nil
error (syntax error or value out of range). -/
def atoiDigits (neg : Bool) (ds : GoString) : Option Int :=
  if ds = [] ∨ ds.all isDigit = false then none
  else if neg then
    if decimalValue ds ≤ 2 ^ 63 then some (-(decimalValue ds : Int)) else none
  else
    if decimalValue ds < 2 ^ 63 then some (decimalValue ds : Int) else none

/-- The Go standard library's `strconv.Atoi` (base 10, 64-bit `int`): an
optional sign `+` or `-` followed by one or more decimal digits and nothing
else; `none` stands for a non-nil error. -/
def Atoi (s : GoString) : Option Int :=
  match s with
  | [] => none
  | c :: cs =>
    if c = '-' then atoiDigits true cs
    else if c = '+' then atoiDigits false cs
    else atoiDigits false (c :: cs)

/-- The verb `%d` of `fmt.Sprintf` applied to a Go `int`. -/
def fmtInt (i : Int) : GoString :=
  if i < 0 then '-' :: Nat.toDigits 10 i.natAbs else Nat.toDigits 10 i.toNat

/-- `make16ColorString` constructs an ANSI-16-color-mode escape sequence.  On
two's-complement integers `i & 15`, `(i >> 3) & 1` and `i & 7` are `i % 16`,
`(i / 8) % 2` and `i % 8` with the non-negative remainder. -/
def make16ColorString (i : Int) : GoString :=
  let i := i % 16
  let boldBit := (i / 8) % 2
  let colorBits := i % 8
  "\x1b[".data ++ fmtInt boldBit ++ ";".data ++ fmtInt (30 + colorBits) ++ "m".data

/-- `make256ColorString` constructs an ANSI-256-color-mode escape sequence;
`i & 255` is `i % 256` with the non-negative remainder. -/
def make256ColorString (i : Int) : GoString :=
  let i := i % 256
  "\x1b[1;38;5;".data ++ fmtInt (i % 256) ++ "m".data

/-- `makeColorString` constructs an ANSI-16-color-mode escape sequence if the
argument is in 0..15, else an ANSI-256-color-mode escape sequence. -/
def makeColorString (i : Int) : GoString :=
  if 0 ≤ i ∧ i ≤ 15 then make16ColorString i else make256ColorString i

/-- The `for _, pair := range namesAndCodes` scan of `makeColorCodeFromName`,
over the entries not yet visited. -/
def lookupName (name : GoString) : List tNameAndCode → Int × Bool
  | [] => (-1, false)
  | pair :: rest => if pair.name = name then (pair.code, true) else lookupName name rest

/-- `makeColorCodeFromName` looks up a named code, if available: first things
like "170", then things like "orchid". -/
def makeColorCodeFromName (name : GoString) : Int × Bool :=
  match Atoi name with
  | some code => (code, true)
  | none => lookupName name namesAndCodes

/-- `makeANSIEscapeFromName` operates on a single piece, e.g. "bold" or "red". -/
def makeANSIEscapeFromName (name : GoString) : GoString × Bool :=
  if name = "plain".data then ([], true)
  else if name = "bold".data ∨ name = "bolded".data then (boldString, true)
  else if name = "underline".data ∨ name = "underlined".data then (underlineString, true)
  else if name = "reverse".data ∨ name = "reversed".data then (reversedString, true)
  else
    match makeColorCodeFromName name with
    | (code, true) => (makeColorString code, true)
    | (_, false) => ([], false)

/-- `strings.Split(s, sep)` for a one-byte separator: the pieces of `s` between
the occurrences of `sep`; a string without `sep`, also the empty string, is a
single piece. -/
def stringsSplit (sep : Char) : GoString → List GoString
  | [] => [[]]
  | c :: cs =>
    if c = sep then [] :: stringsSplit sep cs
    else
      match stringsSplit sep cs with
      | [] => [[c]]
      | piece :: pieces => (c :: piece) :: pieces

/-- The `for i := range namePieces` loop of `MakeANSIEscapesFromName` followed
by `strings.Join(escapePieces, "")`; the second argument holds the entries of
`escapePieces` filled so far. -/
def escapesLoop : List GoString → List GoString → GoString × Bool
  | [], escapePieces => (escapePieces.flatten, true)
  | namePiece :: rest, escapePieces =>
    match makeANSIEscapeFromName namePiece with
    | (_, false) => ([], false)
    | (escapePiece, true) => escapesLoop rest (escapePieces ++ [escapePiece])

/-- `MakeANSIEscapesFromName` takes several pieces delimited by "-", e.g.
"bold-red" or "red-bold" or "underline-236". -/
def MakeANSIEscapesFromName (name : GoString) : GoString × Bool :=
  escapesLoop (stringsSplit '-' name) []

/-- `strings.Join(tokens, "-")`: what a dash-joined colour spec is made of. -/
def joinDash : List GoString → GoString
  | [] => []
  | [t] => t
  | t :: u :: ts => t ++ '-' :: joinDash (u :: ts)

/-- The fixed keywords of `makeANSIEscapeFromName`. -/
def keywords : List GoString :=
  ["plain".data, "bold".data, "bolded".data, "underline".data, "underlined".data,
    "reverse".data, "reversed".data]

/-! ## `lumin.go`: colour selection and the command line -/

/-- `setColor(name)`: the global `highlightStartString` is passed in, and its
value after the call is returned together with the `bool` result. -/
def setColor (highlightStartString : GoString) (name : GoString) : GoString × Bool :=
  match MakeANSIEscapesFromName name with
  | (escape, true) => (escape, true)
  | (_, false) => (highlightStartString, false)

/-- The character class `[a-zA-Z0-9]`. -/
def isAlnum (c : Char) : Bool :=
  decide (('a'.toNat ≤ c.toNat ∧ c.toNat ≤ 'z'.toNat) ∨
    ('A'.toNat ≤ c.toNat ∧ c.toNat ≤ 'Z'.toNat) ∨
    ('0'.toNat ≤ c.toNat ∧ c.toNat ≤ '9'.toNat))

/-- `expandRegex.MatchString` for the pattern `^-[a-zA-Z0-9]+$`: the whole
string is a dash followed by one or more ASCII letters or digits. -/
def expandRegexMatch : GoString → Bool
  | [] => false
  | c :: cs => decide (c = '-') && !cs.isEmpty && cs.all isAlnum

/-- `splitRegex.MatchString` for the pattern `^--[^=]+=.+$`: two dashes, then
one or more bytes other than `=` (the class `[^=]` admits a newline), then `=`,
then one or more bytes other than a newline (which `.` does not match), up to
the end of the string. -/
def splitRegexMatch : GoString → Bool
  | c :: d :: rest =>
    decide (c = '-') && decide (d = '-') &&
      !(rest.takeWhile (fun x => x != '=')).isEmpty &&
      (match rest.dropWhile (fun x => x != '=') with
        | [] => false
        | _ :: value => !value.isEmpty && value.all (fun x => x != '\n'))
  | _ => false

/-- `strings.SplitN(s, "=", 2)`: the string itself when it has no `=`, else
the part before the first `=` and the part after it. -/
def stringsSplitN2 (s : GoString) : List GoString :=
  match s.dropWhile (fun x => x != '=') with
  | [] => [s]
  | _ :: after => [s.takeWhile (fun x => x != '='), after]

/-- The `for _, inarg := range inargs` loop of `getoptify`; the second argument
is `outargs`.  The index expressions `pair[0]` and `pair[1]` are in range
because `splitRegex` matched, so that the argument contains `=`. -/
def getoptifyLoop : List GoString → List GoString → List GoString
  | [], outargs => outargs
  | inarg :: rest, outargs =>
    if expandRegexMatch inarg then
      getoptifyLoop rest (outargs ++ (inarg.drop 1).map (fun c => ['-', c]))
    else if splitRegexMatch inarg then
      let pair := stringsSplitN2 inarg
      getoptifyLoop rest (outargs ++ [pair.getD 0 [], pair.getD 1 []])
    else
      getoptifyLoop rest (outargs ++ [inarg])

/-- `getoptify` expands "-xyz" into "-x -y -z" while leaving "--xyz" intact,
and splits "--foo=bar" into "--foo" and "bar". -/
def getoptify (inargs : List GoString) : List GoString :=
  getoptifyLoop inargs []

/-- How the option processing of `main` ends: with `os.Exit(code)` (help,
listing or usage error), or with the settings, the search pattern and the
filenames with which `main` goes on. -/
inductive ParseResult where
  | exit (code : Int)
  | run (matchOnWordBoundary caseInsensitive : Bool) (highlightStartString : GoString)
      (pattern : GoString) (filenames : List GoString)
  deriving DecidableEq

/-- The end of option processing in `main`: `os.Args[argi:]` is what is left;
without a pattern the program exits with 1, else the first argument left is
the pattern and the others are the filenames. -/
def takePattern (matchOnWordBoundary caseInsensitive : Bool)
    (highlightStartString : GoString) : List GoString → ParseResult
  | [] => .exit 1
  | pattern :: filenames =>
    .run matchOnWordBoundary caseInsensitive highlightStartString pattern filenames

/-- The `for argi < argc` loop of `main` over `os.Args[argi:]`, with the option
variables and the global `highlightStartString` as loop state. -/
def optionLoop : List GoString → Bool → Bool → GoString → ParseResult
  | [], matchOnWordBoundary, caseInsensitive, highlightStartString =>
    takePattern matchOnWordBoundary caseInsensitive highlightStartString []
  | opt :: rest, matchOnWordBoundary, caseInsensitive, highlightStartString =>
    if opt.head? ≠ some '-' then
      takePattern matchOnWordBoundary caseInsensitive highlightStartString (opt :: rest)
    else if opt = "--".data then
      takePattern matchOnWordBoundary caseInsensitive highlightStartString rest
    else if opt = "-h".data ∨ opt = "--help".data then .exit 0
    else if opt = "-w".data then optionLoop rest true caseInsensitive highlightStartString
    else if opt = "-i".data then optionLoop rest matchOnWordBoundary true highlightStartString
    else if opt = "-l".data ∨ opt = "--list-color-codes".data then .exit 0
    else if opt = "-n".data ∨ opt = "--list-color-names".data then .exit 0
    else if opt = "-c".data ∨ opt = "--color".data then
      match rest with
      | [] => .exit 1
      | colorName :: rest' =>
        match setColor highlightStartString colorName with
        | (_, false) => .exit 1
        | (escape, true) => optionLoop rest' matchOnWordBoundary caseInsensitive escape
    else .exit 1

/-- The first part of `main`, up to the choice of pattern and filenames:
`envColorName` is the value of the environment variable `LUMIN_MATCH_COLOR`
and `args` is `os.Args`. -/
def mainOptions (envColorName : GoString) (args : List GoString) : ParseResult :=
  match (if envColorName ≠ [] then setColor defaultHighlight envColorName
      else (defaultHighlight, true)) with
  | (_, false) => .exit 1
  | (highlightStartString, true) =>
    optionLoop ((getoptify args).drop 1) false false highlightStartString

/-! ## `lumin.go`: the stream driver -/

/-- `bufio.MaxScanTokenSize`, the largest buffer a default `bufio.Scanner`
allocates. -/
def MaxScanTokenSize : Nat := 64 * 1024

/-- `dropCR` of `bufio.ScanLines`: a terminal carriage return is dropped. -/
def dropCR (data : GoString) : GoString :=
  if data.getLast? = some '\r' then data.dropLast else data

/-- The tokens that successive calls of `scanner.Scan()` deliver for a default
`bufio.Scanner` (split function `bufio.ScanLines`) reading the given bytes, up
to the call that returns false.  The second argument is the part of the
current line read so far.  A line is delivered without its `\n` and without a
`\r` before it; a last line without terminator is delivered if it is not
empty; a line that does not fit the buffer with its terminator stops the
scanner (`bufio.ErrTooLong`).  The reader is taken to report the end of the
input after the last byte, as a file does. -/
def scanLines : GoString → GoString → List GoString
  | [], cur =>
    if cur = [] then []
    else if cur.length < MaxScanTokenSize then [dropCR cur]
    else []
  | c :: cs, cur =>
    if c = '\n' then
      if cur.length < MaxScanTokenSize then dropCR cur :: scanLines cs []
      else []
    else scanLines cs (cur ++ [c])

/-- `strings.TrimRight(line, "\n")`. -/
def trimRightNewlines (line : GoString) : GoString :=
  (line.reverse.dropWhile (fun x => x == '\n')).reverse

/-- The body of the `for scanner.Scan()` loop of `luminStream` over the lines
the scanner delivers; the last argument is what has been written to standard
output.  The result is the output written and the panic that stopped the
loop, if any. -/
def luminLines (highlightStartString : GoString) (regex : Option Regexp) :
    List GoString → GoString → GoString × Option GoPanic
  | [], stdout => (stdout, none)
  | line :: rest, stdout =>
    match luminLine highlightStartString regex (trimRightNewlines line) with
    | .ok out => luminLines highlightStartString regex rest (stdout ++ out ++ ['\n'])
    | .error p => (stdout, some p)

/-- `luminStream(regex, istream)`: `istream` is given by the bytes it delivers.
The returned `error` is always `nil` and is left out; the result is what has
been written to standard output, and the panic that ended the call, if any. -/
def luminStream (highlightStartString : GoString) (regex : Option Regexp)
    (istream : GoString) : GoString × Option GoPanic :=
  luminLines highlightStartString regex (scanLines istream []) []

/-- How a run of the program ends: with `os.Exit(code)` or with a panic, after
the given bytes have been written to standard output. -/
inductive Outcome where
  | exit (code : Int) (stdout : GoString)
  | panic (p : GoPanic) (stdout : GoString)
  deriving DecidableEq

/-- The pattern that `main` hands to `regexp.Compile`: with `-w` it is put
between two `\\b`, then with `-i` it is prefixed with `(?i)`. -/
def decoratePattern (matchOnWordBoundary caseInsensitive : Bool) (pattern : GoString) :
    GoString :=
  let pattern := if matchOnWordBoundary then "\\b".data ++ pattern ++ "\\b".data else pattern
  if caseInsensitive then "(?i)".data ++ pattern else pattern

/-- The second part of `main`, from the pattern on.  `compile` is
`regexp.Compile` (`none` is a non-nil error, with which the returned pointer
is nil), `openFiles` is `argf.Open` (`none` is a non-nil error, else the bytes
of the stream).  A compile error is printed to standard error and `main` goes
on. -/
def mainRun (compile : GoString → Option Regexp)
    (openFiles : List GoString → Option GoString)
    (matchOnWordBoundary caseInsensitive : Bool) (highlightStartString : GoString)
    (pattern : GoString) (filenames : List GoString) : Outcome :=
  let regex := compile (decoratePattern matchOnWordBoundary caseInsensitive pattern)
  match openFiles filenames with
  | none => .exit 1 []
  | some istream =>
    match luminStream highlightStartString regex istream with
    | (stdout, some p) => .panic p stdout
    | (stdout, none) => .exit 0 stdout

/-! ## A name-to-code map -/

/-- The insertion `m[pair.name] = pair.code` into a name-to-code map. -/
def mapInsert (m : GoString → Option Int) (pair : tNameAndCode) : GoString → Option Int :=
  Function.update m pair.name (some pair.code)

/-- A name-to-code map built from a table: the entries are inserted in order,
a later entry replacing an earlier one with the same name. -/
def buildMap (table : List tNameAndCode) : GoString → Option Int :=
  table.foldl mapInsert (fun _ => none)

/-- A lookup in a name-to-code map, with the results of `makeColorCodeFromName`:
the code and true, or -1 and false. -/
def mapLookup (m : GoString → Option Int) (name : GoString) : Int × Bool :=
  match m name with
  | some code => (code, true)
  | none => (-1, false)

/-! ## Helper lemmas for the highlighter -/

theorem slice_ok (L : GoString) (a b : Int) (h0 : 0 ≤ a) (hab : a ≤ b)
    (hb : b ≤ (L.length : Int)) : slice L a b = .ok (substr L a b) := by
  unfold slice substr
  rw [if_pos ⟨h0, hab, hb⟩]

theorem sliceFrom_ok (L : GoString) (a : Int) (h0 : 0 ≤ a)
    (ha : a ≤ (L.length : Int)) : sliceFrom L a = .ok (L.drop a.toNat) := by
  unfold sliceFrom
  rw [slice_ok L a _ h0 ha le_rfl]
  unfold substr
  congr 1
  apply List.take_of_length_le
  simp

theorem wellFormedFrom_of_wellFormed (n : Int) :
    ∀ (ivs : List (Int × Int)) (pos : Int), WellFormed n ivs → pos ≤ n →
      (∀ iv ∈ ivs.head?, pos ≤ iv.1) → WellFormedFrom n pos ivs
  | [], pos, _, hn, _ => hn
  | iv :: ivs, pos, h, _, hpos => by
    obtain ⟨hall, hch⟩ := h
    have hiv := hall iv (List.mem_cons_self _ _)
    refine ⟨hpos iv (by simp), hiv.2.1, ?_⟩
    apply wellFormedFrom_of_wellFormed n ivs iv.2
    · exact ⟨fun x hx => hall x (List.mem_cons_of_mem _ hx), (List.chain'_cons'.mp hch).2⟩
    · exact hiv.2.2
    · exact (List.chain'_cons'.mp hch).1

theorem wellFormedFrom_zero (n : Int) (ivs : List (Int × Int)) (hn : 0 ≤ n)
    (h : WellFormed n ivs) : WellFormedFrom n 0 ivs := by
  apply wellFormedFrom_of_wellFormed n ivs 0 h hn
  intro iv hiv
  have hmem : iv ∈ ivs := by
    cases ivs with
    | nil => simp at hiv
    | cons x xs => simp at hiv; subst hiv; exact List.mem_cons_self _ _
  exact (h.1 iv hmem).1

/-- The loop, started at a cursor inside the line on intervals that are
well-formed from that cursor, never leaves the line and appends the
specification's text to the buffer. -/
theorem luminLoop_ok (S L : GoString) :
    ∀ (ivs : List (Int × Int)) (pos : Int) (buf : GoString), 0 ≤ pos →
      WellFormedFrom (L.length : Int) pos ivs →
      luminLoop S L ivs pos buf =
        .ok (buf ++ (spans L S DefaultColorString pos ivs ++ L.drop (lastEnd pos ivs).toNat))
  | [], pos, buf, h0, h => by
    simp only [luminLoop, spans, lastEnd]
    rw [sliceFrom_ok L pos h0 h]
    simp [bind, Except.bind, pure, Except.pure]
  | iv :: ivs, pos, buf, h0, h => by
    obtain ⟨h1, h2, h3⟩ := h
    have hlen : iv.2 ≤ (L.length : Int) := by
      clear h1 h2 h0
      induction ivs generalizing iv with
      | nil => exact h3
      | cons x xs ih => exact le_trans (le_trans h3.1 h3.2.1) (ih x h3.2.2)
    simp only [luminLoop, spans, lastEnd]
    rw [slice_ok L pos iv.1 h0 h1 (le_trans h2 hlen),
      slice_ok L iv.1 iv.2 (le_trans h0 h1) h2 hlen]
    simp only [bind, Except.bind]
    rw [luminLoop_ok S L ivs iv.2 _ (le_trans (le_trans h0 h1) h2) h3]
    simp [colorize, List.append_assoc]

theorem luminLine_eq_input (S L : GoString) (re : Regexp)
    (hm : re L = none ∨ re L = some []) : luminLine S (some re) L = .ok L := by
  unfold luminLine
  rcases hm with h | h <;> simp [h]

theorem luminLine_eq_interleave (S L : GoString) (re : Regexp) (ivs : List (Int × Int))
    (hm : re L = some ivs) (hwf : WellFormed (L.length : Int) ivs) :
    luminLine S (some re) L = .ok (interleave L S DefaultColorString ivs) := by
  have hloop := luminLoop_ok S L ivs 0 [] le_rfl
    (wellFormedFrom_zero _ ivs (Int.ofNat_nonneg _) hwf)
  unfold luminLine
  simp only [hm]
  cases ivs with
  | nil => simp [interleave, spans, lastEnd]
  | cons iv rest => simpa [interleave] using hloop

theorem spans_append (L S E : GoString) :
    ∀ (xs ys : List (Int × Int)) (pos : Int),
      spans L S E pos (xs ++ ys) = spans L S E pos xs ++ spans L S E (lastEnd pos xs) ys
  | [], ys, pos => by simp [spans, lastEnd]
  | x :: xs, ys, pos => by
    simp [spans, lastEnd, spans_append L S E xs ys x.2, List.append_assoc]

theorem lastEnd_append :
    ∀ (xs ys : List (Int × Int)) (pos : Int),
      lastEnd pos (xs ++ ys) = lastEnd (lastEnd pos xs) ys
  | [], ys, pos => by simp [lastEnd]
  | x :: xs, ys, pos => by simp [lastEnd, lastEnd_append xs ys x.2]

theorem substr_self (L : GoString) (b : Int) : substr L b b = [] := by
  simp [substr]

theorem substr_append_drop (L : GoString) (a b : Int) (hab : a ≤ b) :
    substr L a b ++ L.drop b.toNat = L.drop a.toNat := by
  have hle : a.toNat ≤ b.toNat := Int.toNat_le_toNat hab
  have hb : b.toNat = a.toNat + (b.toNat - a.toNat) := by omega
  unfold substr
  conv_lhs => rhs; rw [hb, ← List.drop_drop]
  exact List.take_append_drop _ _

/-- The reconstruction invariant in structural form: with both markers empty,
the specification's text is the line itself. -/
theorem spans_plain (L : GoString) (n : Int) :
    ∀ (ivs : List (Int × Int)) (pos : Int), WellFormedFrom n pos ivs →
      spans L [] [] pos ivs ++ L.drop (lastEnd pos ivs).toNat = L.drop pos.toNat
  | [], pos, _ => by simp [spans, lastEnd]
  | iv :: ivs, pos, h => by
    obtain ⟨h1, h2, h3⟩ := h
    simp only [spans, lastEnd, List.append_assoc, List.nil_append, List.append_nil]
    rw [spans_plain L n ivs iv.2 h3, substr_append_drop L iv.1 iv.2 h2,
      substr_append_drop L pos iv.1 h1]

/-! ## The line highlighter: claims -/

/-- C1: for every line L, start marker S and interval list returned by the
matcher with `0 <= s1 <= e1 <= s2 <= ... <= ek <= len(L)`, `luminLine` returns
exactly `L[0:s1] + S + L[s1:e1] + E + ... + S + L[sk:ek] + E + L[ek:]`, where E
is the end marker `DefaultColorString`; in particular on
`"abc foo def foo ghi"` the intervals `[(4,7),(12,15)]` and `[(4,15)]` give the
two outputs of the specification's scenarios. -/
theorem luminLine_interleaves (S L : GoString) (re : Regexp) (ivs : List (Int × Int))
    (hm : re L = some ivs) (hwf : WellFormed (L.length : Int) ivs) :
    luminLine S (some re) L = .ok (interleave L S DefaultColorString ivs) ∧
    (L = "abc foo def foo ghi".data → ivs = [(4, 7), (12, 15)] →
      luminLine S (some re) L =
        .ok ("abc ".data ++ S ++ "foo".data ++ DefaultColorString ++ " def ".data ++ S ++
          "foo".data ++ DefaultColorString ++ " ghi".data)) ∧
    (L = "abc foo def foo ghi".data → ivs = [(4, 15)] →
      luminLine S (some re) L =
        .ok ("abc ".data ++ S ++ "foo def foo".data ++ DefaultColorString ++ " ghi".data)) := by
  have key := luminLine_eq_interleave S L re ivs hm hwf
  refine ⟨key, ?_, ?_⟩
  · intro hL hivs
    rw [key, hL, hivs]
    simp [interleave, spans, lastEnd, substr]
  · intro hL hivs
    rw [key, hL, hivs]
    simp [interleave, spans, lastEnd, substr]

theorem luminLine_interleaves_witness :
    WellFormed ("abc foo def foo ghi".data.length : Int) [(4, 7), (12, 15)] ∧
    luminLine defaultHighlight (some (fun _ => some [(4, 7), (12, 15)]))
        "abc foo def foo ghi".data =
      .ok "abc \x1b[1;38;5;196mfoo\x1b[0m def \x1b[1;38;5;196mfoo\x1b[0m ghi".data :=
  ⟨by decide,
    (luminLine_interleaves defaultHighlight "abc foo def foo ghi".data
      (fun _ => some [(4, 7), (12, 15)]) [(4, 7), (12, 15)] rfl (by decide)).1.trans
      (by decide)⟩

/-- C2: identity on no match: when the matcher returns a nil or an empty
interval list, `luminLine` returns the line itself (also the empty line), with
no marker emitted. -/
theorem luminLine_no_match (S L : GoString) (re : Regexp)
    (hm : re L = none ∨ re L = some []) : luminLine S (some re) L = .ok L :=
  luminLine_eq_input S L re hm

theorem luminLine_no_match_witness :
    luminLine defaultHighlight (some (fun _ => none)) [] = .ok [] ∧
    luminLine defaultHighlight (some (fun _ => some [])) "abc foo".data = .ok "abc foo".data :=
  ⟨luminLine_no_match defaultHighlight [] (fun _ => none) (Or.inl rfl),
    luminLine_no_match defaultHighlight "abc foo".data (fun _ => some []) (Or.inr rfl)⟩

/-- C4: the highlighter is total on well-formed input: for every line (also the
empty one) and every interval list with `0 <= s_i <= e_i <= len(L)` and
`e_i <= s_(i+1)` (also the nil or empty list, zero-width intervals and the
single interval `(0, len(L))`), every slice `luminLine` takes is within bounds:
the slice-out-of-range branch is not taken and a string is returned. -/
theorem luminLine_total (S L : GoString) (re : Regexp)
    (hwf : WellFormed (L.length : Int) ((re L).getD [])) :
    ∃ out, luminLine S (some re) L = .ok out := by
  cases hm : re L with
  | none => exact ⟨L, luminLine_eq_input S L re (Or.inl hm)⟩
  | some ivs =>
    rw [hm] at hwf
    exact ⟨_, luminLine_eq_interleave S L re ivs hm hwf⟩

theorem luminLine_total_witness :
    (WellFormed (([] : GoString).length : Int) ((some [(0, 0)] : Option _).getD []) ∧
      ∃ out, luminLine defaultHighlight (some (fun _ => some [(0, 0)])) [] = .ok out) ∧
    (WellFormed ("abc foo".data.length : Int) ((some [(0, 7)] : Option _).getD []) ∧
      ∃ out, luminLine defaultHighlight (some (fun _ => some [(0, 7)])) "abc foo".data =
        .ok out) ∧
    (WellFormed ("abc foo".data.length : Int) ((none : Option (List (Int × Int))).getD []) ∧
      ∃ out, luminLine defaultHighlight (some (fun _ => none)) "abc foo".data = .ok out) :=
  ⟨⟨by decide, luminLine_total defaultHighlight [] (fun _ => some [(0, 0)]) (by decide)⟩,
    ⟨by decide,
      luminLine_total defaultHighlight "abc foo".data (fun _ => some [(0, 7)]) (by decide)⟩,
    ⟨by decide, luminLine_total defaultHighlight "abc foo".data (fun _ => none) (by decide)⟩⟩

/-- C5: full coverage: for every line L of length n and the single interval
list `[(0, n)]`, `luminLine` returns start marker + L + end marker, with no
leading or trailing unmatched text. -/
theorem luminLine_full_coverage (S L : GoString) (re : Regexp)
    (hm : re L = some [(0, (L.length : Int))]) :
    luminLine S (some re) L = .ok (S ++ L ++ DefaultColorString) := by
  have hwf : WellFormed (L.length : Int) [(0, (L.length : Int))] := by
    simp [WellFormed]
  rw [luminLine_eq_interleave S L re _ hm hwf]
  simp [interleave, spans, lastEnd, substr]

theorem luminLine_full_coverage_witness :
    luminLine defaultHighlight (some (fun L => some [(0, (L.length : Int))])) "abc foo".data =
      .ok "\x1b[1;38;5;196mabc foo\x1b[0m".data :=
  luminLine_full_coverage defaultHighlight "abc foo".data
    (fun L => some [(0, (L.length : Int))]) rfl

/-- C6: adjacency preservation: when two consecutive intervals `(a,b)`, `(b,c)`
of a well-formed interval list touch, the output is the text written before
them, then start marker + `L[a:b]` + end marker + start marker + `L[b:c]` +
end marker directly concatenated, then the text written after them: nothing
stands between the end marker of the first span and the start marker of the
second. -/
theorem luminLine_adjacent (S L : GoString) (re : Regexp) (pre post : List (Int × Int))
    (a b c : Int) (hm : re L = some (pre ++ (a, b) :: (b, c) :: post))
    (hwf : WellFormed (L.length : Int) (pre ++ (a, b) :: (b, c) :: post)) :
    luminLine S (some re) L =
      .ok ((spans L S DefaultColorString 0 pre ++ substr L (lastEnd 0 pre) a) ++
        (S ++ substr L a b ++ DefaultColorString) ++
        (S ++ substr L b c ++ DefaultColorString) ++
        (spans L S DefaultColorString c post ++ L.drop (lastEnd c post).toNat)) := by
  rw [luminLine_eq_interleave S L re _ hm hwf]
  simp [interleave, spans_append, lastEnd_append, spans, lastEnd, substr_self,
    List.append_assoc]

theorem luminLine_adjacent_witness :
    WellFormed ("abcdefgh".data.length : Int) ([] ++ (2, 4) :: (4, 6) :: []) ∧
    luminLine defaultHighlight (some (fun _ => some [(2, 4), (4, 6)])) "abcdefgh".data =
      .ok "ab\x1b[1;38;5;196mcd\x1b[0m\x1b[1;38;5;196mef\x1b[0mgh".data :=
  ⟨by decide,
    (luminLine_adjacent defaultHighlight "abcdefgh".data (fun _ => some [(2, 4), (4, 6)])
      [] [] 2 4 6 rfl (by decide)).trans (by decide)⟩

/-- C7: zero-width match: for every line L and every k with `0 <= k <= len(L)`,
`luminLine` on the interval list `[(k,k)]` returns
`L[0:k]` + start marker + end marker + `L[k:]`: both markers with nothing
between them, the surrounding text untouched. -/
theorem luminLine_zero_width (S L : GoString) (re : Regexp) (k : Int) (h0 : 0 ≤ k)
    (hk : k ≤ (L.length : Int)) (hm : re L = some [(k, k)]) :
    luminLine S (some re) L =
      .ok (L.take k.toNat ++ S ++ DefaultColorString ++ L.drop k.toNat) := by
  have hwf : WellFormed (L.length : Int) [(k, k)] := by
    simp [WellFormed, h0, hk]
  rw [luminLine_eq_interleave S L re _ hm hwf]
  simp [interleave, spans, lastEnd, substr]

theorem luminLine_zero_width_witness :
    ((0 : Int) ≤ 3 ∧ (3 : Int) ≤ ("abcdef".data.length : Int)) ∧
    luminLine defaultHighlight (some (fun _ => some [(3, 3)])) "abcdef".data =
      .ok "abc\x1b[1;38;5;196m\x1b[0mdef".data :=
  ⟨by decide,
    (luminLine_zero_width defaultHighlight "abcdef".data (fun _ => some [(3, 3)]) 3
      (by decide) (by decide) rfl).trans (by decide)⟩

/-- C3: reconstruction invariant: for every line L, every start marker S and
every valid ordered non-overlapping interval list (nil and empty included),
`luminLine` returns the line with the markers inserted at the interval
bounds, `L[0:s1] + S + L[s1:e1] + E + ... + L[ek:]`, and stripping all start
and end markers from it, that is the same text with both markers erased,
yields back exactly L. -/
theorem luminLine_reconstruction (S L : GoString) (re : Regexp)
    (hwf : WellFormed (L.length : Int) ((re L).getD [])) :
    luminLine S (some re) L =
      .ok (interleave L S DefaultColorString ((re L).getD [])) ∧
    interleave L [] [] ((re L).getD []) = L := by
  constructor
  · cases hm : re L with
    | none =>
      rw [luminLine_eq_input S L re (Or.inl hm)]
      simp [interleave, spans, lastEnd]
    | some ivs =>
      rw [hm] at hwf
      exact luminLine_eq_interleave S L re ivs hm hwf
  · have h := spans_plain L (L.length : Int) ((re L).getD []) 0
      (wellFormedFrom_zero _ _ (Int.ofNat_nonneg _) hwf)
    simpa [interleave] using h

theorem luminLine_reconstruction_witness :
    (WellFormed ("abc foo def foo ghi".data.length : Int)
        ((some [(4, 7), (12, 15)] : Option _).getD []) ∧
      luminLine defaultHighlight (some (fun _ => some [(4, 7), (12, 15)]))
          "abc foo def foo ghi".data =
        .ok "abc \x1b[1;38;5;196mfoo\x1b[0m def \x1b[1;38;5;196mfoo\x1b[0m ghi".data ∧
      interleave "abc foo def foo ghi".data [] [] [(4, 7), (12, 15)] =
        "abc foo def foo ghi".data) ∧
    (WellFormed ("\x1b[0mfoo".data.length : Int) ((some [(4, 7)] : Option _).getD []) ∧
      luminLine defaultHighlight (some (fun _ => some [(4, 7)])) "\x1b[0mfoo".data =
        .ok "\x1b[0m\x1b[1;38;5;196mfoo\x1b[0m".data ∧
      interleave "\x1b[0mfoo".data [] [] [(4, 7)] = "\x1b[0mfoo".data) :=
  ⟨⟨by decide,
      (luminLine_reconstruction defaultHighlight "abc foo def foo ghi".data
        (fun _ => some [(4, 7), (12, 15)]) (by decide)).1.trans (by decide),
      (luminLine_reconstruction defaultHighlight "abc foo def foo ghi".data
        (fun _ => some [(4, 7), (12, 15)]) (by decide)).2⟩,
    ⟨by decide,
      (luminLine_reconstruction defaultHighlight "\x1b[0mfoo".data
        (fun _ => some [(4, 7)]) (by decide)).1.trans (by decide),
      (luminLine_reconstruction defaultHighlight "\x1b[0mfoo".data
        (fun _ => some [(4, 7)]) (by decide)).2⟩⟩

/-! ## Helper lemmas for the colour encoder -/

theorem defaultHighlight_eq :
    MakeANSIEscapesFromName "196".data = (defaultHighlight, true) := by
  decide

theorem stringsSplit_ne_nil (sep : Char) : ∀ s : GoString, stringsSplit sep s ≠ []
  | [] => by simp [stringsSplit]
  | c :: cs => by
    unfold stringsSplit
    split
    · simp
    · split <;> simp

theorem stringsSplit_append_sep (sep : Char) (r : GoString) :
    ∀ t : GoString, sep ∉ t → stringsSplit sep (t ++ sep :: r) = t :: stringsSplit sep r
  | [], _ => by simp [stringsSplit]
  | c :: cs, h => by
    have hc : c ≠ sep := fun e => h (by simp [e])
    have hcs : sep ∉ cs := fun e => h (List.mem_cons_of_mem _ e)
    simp [stringsSplit, hc, stringsSplit_append_sep sep r cs hcs]

theorem stringsSplit_free (sep : Char) :
    ∀ t : GoString, sep ∉ t → stringsSplit sep t = [t]
  | [], _ => by simp [stringsSplit]
  | c :: cs, h => by
    have hc : c ≠ sep := fun e => h (by simp [e])
    have hcs : sep ∉ cs := fun e => h (List.mem_cons_of_mem _ e)
    simp [stringsSplit, hc, stringsSplit_free sep cs hcs]

/-- Splitting a dash-joined list of dash-free tokens gives the tokens back. -/
theorem stringsSplit_joinDash :
    ∀ ts : List GoString, ts ≠ [] → (∀ t ∈ ts, '-' ∉ t) →
      stringsSplit '-' (joinDash ts) = ts
  | [], h, _ => absurd rfl h
  | [t], _, hfree => by
    simpa [joinDash] using stringsSplit_free '-' t (hfree t (by simp))
  | t :: u :: ts, _, hfree => by
    simp only [joinDash]
    rw [stringsSplit_append_sep '-' _ t (hfree t (by simp)),
      stringsSplit_joinDash (u :: ts) (by simp)
        (fun x hx => hfree x (List.mem_cons_of_mem _ hx))]

theorem escapesLoop_fail :
    ∀ (pieces acc : List GoString),
      (∃ t ∈ pieces, (makeANSIEscapeFromName t).2 = false) →
      escapesLoop pieces acc = ([], false)
  | [], _, h => by simp at h
  | p :: ps, acc, h => by
    cases hp : makeANSIEscapeFromName p with
    | mk f ok =>
      cases ok with
      | false => simp [escapesLoop, hp]
      | true =>
        simp only [escapesLoop, hp]
        apply escapesLoop_fail ps
        obtain ⟨t, ht, hf⟩ := h
        rcases List.mem_cons.mp ht with e | e
        · subst e
          rw [hp] at hf
          simp at hf
        · exact ⟨t, e, hf⟩

theorem escapesLoop_ok :
    ∀ (pieces acc : List GoString),
      (∀ t ∈ pieces, (makeANSIEscapeFromName t).2 = true) →
      escapesLoop pieces acc =
        ((acc ++ pieces.map (fun t => (makeANSIEscapeFromName t).1)).flatten, true)
  | [], acc, _ => by simp [escapesLoop]
  | p :: ps, acc, h => by
    cases hp : makeANSIEscapeFromName p with
    | mk f ok =>
      have hok : ok = true := by
        have := h p (by simp)
        rw [hp] at this
        exact this
      subst hok
      simp only [escapesLoop, hp]
      rw [escapesLoop_ok ps _ (fun t ht => h t (List.mem_cons_of_mem _ ht))]
      simp [hp]

theorem lookupName_found (name : GoString) :
    ∀ l : List tNameAndCode,
      (lookupName name l).2 = true ↔ name ∈ l.map (fun p => p.name)
  | [] => by simp [lookupName]
  | pair :: rest => by
    unfold lookupName
    by_cases h : pair.name = name
    · simp [h]
    · have h' : ¬ name = pair.name := fun e => h e.symm
      simp [h, h', lookupName_found name rest]

theorem atoiDigits_isSome (ds : GoString) :
    (atoiDigits false ds).isSome = true ↔
      ds ≠ [] ∧ (∀ c ∈ ds, isDigit c = true) ∧ decimalValue ds < 2 ^ 63 := by
  unfold atoiDigits
  by_cases h1 : ds = []
  · simp [h1]
  · by_cases h2 : ds.all isDigit = false
    · have : ¬ ∀ c ∈ ds, isDigit c = true := by
        intro hall
        have : ds.all isDigit = true := List.all_eq_true.mpr hall
        rw [this] at h2
        exact Bool.noConfusion h2
      simp [h1, h2, this]
    · have hall : ∀ c ∈ ds, isDigit c = true := by
        have : ds.all isDigit = true := by simpa using h2
        exact List.all_eq_true.mp this
      rw [if_neg (not_or.mpr ⟨h1, h2⟩)]
      simp only [Bool.false_eq_true, if_false]
      by_cases h3 : decimalValue ds < 2 ^ 63
      · rw [if_pos h3]
        exact ⟨fun _ => ⟨h1, hall, h3⟩, fun _ => rfl⟩
      · rw [if_neg h3]
        exact ⟨fun h => Bool.noConfusion h, fun h => absurd h.2.2 h3⟩

/-- When `strconv.Atoi` succeeds on a dash-free string: the string is one or
more decimal digits, optionally preceded by `+`, with a value below `2^63`. -/
theorem Atoi_isSome (t : GoString) (hdash : '-' ∉ t) :
    (Atoi t).isSome = true ↔
      ∃ ds : GoString, (t = ds ∨ t = '+' :: ds) ∧ ds ≠ [] ∧
        (∀ c ∈ ds, isDigit c = true) ∧ decimalValue ds < 2 ^ 63 := by
  cases t with
  | nil =>
    simp only [Atoi, Option.isSome_none]
    constructor
    · intro h; exact Bool.noConfusion h
    · rintro ⟨ds, h | h, hne, _⟩
      · exact absurd h.symm hne
      · exact List.noConfusion h
  | cons c cs =>
    have hc : c ≠ '-' := fun e => hdash (by simp [e])
    simp only [Atoi]
    rw [if_neg hc]
    by_cases hp : c = '+'
    · rw [if_pos hp, atoiDigits_isSome]
      subst hp
      constructor
      · intro h
        exact ⟨cs, Or.inr rfl, h⟩
      · rintro ⟨ds, h | h, hne, hall, hv⟩
        · subst h
          have := hall '+' (by simp)
          exact absurd this (by decide)
        · simp only [List.cons.injEq, true_and] at h
          subst h
          exact ⟨hne, hall, hv⟩
    · rw [if_neg hp, atoiDigits_isSome]
      constructor
      · intro h
        exact ⟨c :: cs, Or.inl rfl, h⟩
      · rintro ⟨ds, h | h, hne, hall, hv⟩
        · subst h
          exact ⟨hne, hall, hv⟩
        · simp only [List.cons.injEq] at h
          exact absurd h.1 hp

theorem makeColorCodeFromName_found (t : GoString) :
    (makeColorCodeFromName t).2 = true ↔
      (Atoi t).isSome = true ∨ t ∈ namesAndCodes.map (fun p => p.name) := by
  unfold makeColorCodeFromName
  cases h : Atoi t with
  | none => simp [lookupName_found]
  | some code => simp

theorem makeANSIEscapeFromName_found (t : GoString) :
    (makeANSIEscapeFromName t).2 = true ↔
      t ∈ keywords ∨ (makeColorCodeFromName t).2 = true := by
  by_cases hk : t ∈ keywords
  · have hk' := hk
    simp only [keywords, List.mem_cons, List.mem_singleton, List.not_mem_nil, or_false] at hk'
    simp only [hk, true_or, iff_true]
    unfold makeANSIEscapeFromName
    rcases hk' with h | h | h | h | h | h | h <;> subst h <;> decide
  · have hk' := hk
    simp only [keywords, List.mem_cons, List.mem_singleton, List.not_mem_nil, or_false,
      not_or] at hk'
    obtain ⟨k1, k2, k3, k4, k5, k6, k7⟩ := hk'
    simp only [hk, false_or]
    unfold makeANSIEscapeFromName
    rw [if_neg k1, if_neg (by simp [k2, k3]), if_neg (by simp [k4, k5]),
      if_neg (by simp [k6, k7])]
    cases h : makeColorCodeFromName t with
    | mk code ok => cases ok <;> simp

theorem atoiDigits_eq (ds : GoString) (hne : ds ≠ [])
    (hall : ∀ c ∈ ds, isDigit c = true) (hv : decimalValue ds < 2 ^ 63) :
    atoiDigits false ds = some (decimalValue ds : Int) := by
  have h2 : ¬ (ds = [] ∨ ds.all isDigit = false) := by
    rintro (h | h)
    · exact hne h
    · rw [List.all_eq_true.mpr hall] at h
      exact Bool.noConfusion h
  unfold atoiDigits
  rw [if_neg h2]
  simp only [Bool.false_eq_true, if_false]
  rw [if_pos hv]

/-- On a string of decimal digits, optionally preceded by `+`, whose value is
below `2^63`, `strconv.Atoi` returns the value. -/
theorem Atoi_eq (t ds : GoString) (ht : t = ds ∨ t = '+' :: ds) (hne : ds ≠ [])
    (hall : ∀ c ∈ ds, isDigit c = true) (hv : decimalValue ds < 2 ^ 63) :
    Atoi t = some (decimalValue ds : Int) := by
  rcases ht with h | h
  · subst h
    cases t with
    | nil => exact absurd rfl hne
    | cons c cs =>
      have hc : isDigit c = true := hall c (by simp)
      have h1 : c ≠ '-' := by
        intro e
        rw [e] at hc
        exact absurd hc (by decide)
      have h2 : c ≠ '+' := by
        intro e
        rw [e] at hc
        exact absurd hc (by decide)
      simp only [Atoi]
      rw [if_neg h1, if_neg h2]
      exact atoiDigits_eq (c :: cs) hne hall hv
  · subst h
    simp [Atoi, atoiDigits_eq ds hne hall hv]

theorem keywords_head :
    ∀ k ∈ keywords, k.head?.map (fun c => isDigit c || c == '+') = some false := by
  decide

theorem numeric_not_keyword (t ds : GoString) (ht : t = ds ∨ t = '+' :: ds)
    (hne : ds ≠ []) (hall : ∀ c ∈ ds, isDigit c = true) : t ∉ keywords := by
  intro hk
  have h := keywords_head t hk
  rcases ht with e | e
  · subst e
    cases t with
    | nil => exact hne rfl
    | cons c cs =>
      have hc : isDigit c = true := hall c (by simp)
      simp [hc] at h
  · subst e
    simp at h

theorem makeANSIEscapeFromName_of_Atoi (t : GoString) (n : Int) (hk : t ∉ keywords)
    (hA : Atoi t = some n) : makeANSIEscapeFromName t = (makeColorString n, true) := by
  simp only [keywords, List.mem_cons, List.mem_singleton, List.not_mem_nil, or_false,
    not_or] at hk
  obtain ⟨k1, k2, k3, k4, k5, k6, k7⟩ := hk
  unfold makeANSIEscapeFromName
  rw [if_neg k1, if_neg (by simp [k2, k3]), if_neg (by simp [k4, k5]),
    if_neg (by simp [k6, k7])]
  simp [makeColorCodeFromName, hA]

/-- Outside 0..15 `makeColorString` is the extended sequence with the code
reduced modulo 256. -/
theorem makeColorString_extended (n : Nat) (h : 16 ≤ n) :
    makeColorString (n : Int) =
      "\x1b[1;38;5;".data ++ Nat.toDigits 10 (n % 256) ++ "m".data := by
  have hmod : ((n : Int) % 256 % 256) = ((n % 256 : Nat) : Int) := by omega
  unfold makeColorString
  rw [if_neg (by omega)]
  unfold make256ColorString fmtInt
  simp only [hmod]
  rw [if_neg (by omega)]
  have h2 : ((n : Int) % 256).toNat = n % 256 := by omega
  simp [h2]

/-! ## The colour encoder: claims -/

/-- C8: all-or-nothing colour resolution: if any one of the tokens of a
dash-joined colour spec (the pieces `strings.Split` cuts it into) fails to
resolve, then `MakeANSIEscapesFromName` returns `("", false)`, whatever the
other tokens are and wherever the failing token stands: no partial marker is
returned.  Said with the tokens: for dash-free tokens `pre`, `t`, `post` with
`t` failing, the spec `pre-...-t-...-post` gives `("", false)`. -/
theorem MakeANSIEscapesFromName_all_or_nothing (name : GoString)
    (h : ∃ t ∈ stringsSplit '-' name, (makeANSIEscapeFromName t).2 = false) :
    MakeANSIEscapesFromName name = ([], false) ∧
    ∀ (pre post : List GoString) (t : GoString), (∀ u ∈ pre ++ t :: post, '-' ∉ u) →
      (makeANSIEscapeFromName t).2 = false →
      MakeANSIEscapesFromName (joinDash (pre ++ t :: post)) = ([], false) := by
  refine ⟨escapesLoop_fail _ [] h, ?_⟩
  intro pre post t hfree hfail
  unfold MakeANSIEscapesFromName
  rw [stringsSplit_joinDash _ (by simp) hfree]
  exact escapesLoop_fail _ [] ⟨t, by simp, hfail⟩

theorem MakeANSIEscapesFromName_all_or_nothing_witness :
    (∃ t ∈ stringsSplit '-' "bold-nosuch-red".data, (makeANSIEscapeFromName t).2 = false) ∧
    MakeANSIEscapesFromName "bold-nosuch-red".data = ([], false) :=
  ⟨⟨"nosuch".data, by decide, by decide⟩,
    (MakeANSIEscapesFromName_all_or_nothing "bold-nosuch-red".data
      ⟨"nosuch".data, by decide, by decide⟩).1⟩

/-- C9: for every non-empty list of dash-free tokens `t1..tn` each of which
resolves to a fragment `f_i`, `MakeANSIEscapesFromName(t1 + "-" + ... + "-" + tn)`
returns `(f1 + f2 + ... + fn, true)`: the start marker is the concatenation of
the per-token fragments in token order. -/
theorem MakeANSIEscapesFromName_concat (ts : List GoString) (hne : ts ≠ [])
    (hfree : ∀ t ∈ ts, '-' ∉ t)
    (hres : ∀ t ∈ ts, (makeANSIEscapeFromName t).2 = true) :
    MakeANSIEscapesFromName (joinDash ts) =
      ((ts.map (fun t => (makeANSIEscapeFromName t).1)).flatten, true) := by
  unfold MakeANSIEscapesFromName
  rw [stringsSplit_joinDash ts hne hfree, escapesLoop_ok ts [] hres]
  simp

theorem MakeANSIEscapesFromName_concat_witness :
    MakeANSIEscapesFromName "bold-red".data = ("\x1b[1m\x1b[1;31m".data, true) ∧
    MakeANSIEscapesFromName "red-bold".data = ("\x1b[1;31m\x1b[1m".data, true) ∧
    MakeANSIEscapesFromName "underline-236".data = ("\x1b[4m\x1b[1;38;5;236m".data, true) :=
  ⟨(MakeANSIEscapesFromName_concat ["bold".data, "red".data] (by decide) (by decide)
      (by decide)).trans (by decide),
    (MakeANSIEscapesFromName_concat ["red".data, "bold".data] (by decide) (by decide)
      (by decide)).trans (by decide),
    (MakeANSIEscapesFromName_concat ["underline".data, "236".data] (by decide) (by decide)
      (by decide)).trans (by decide)⟩

/-- C10 as stated fails: the token `256` is a decimal integer outside 0..255,
is no keyword and no name of the table, and yet it resolves: `strconv.Atoi`
accepts it and `make256ColorString` reduces the code modulo 256. -/
theorem makeANSIEscapeFromName_resolves_256 :
    '-' ∉ "256".data ∧
    Atoi "256".data = some 256 ∧ ¬ ((0 : Int) ≤ 256 ∧ (256 : Int) ≤ 255) ∧
    "256".data ∉ keywords ∧
    "256".data ∉ namesAndCodes.map (fun p => p.name) ∧
    makeANSIEscapeFromName "256".data = ("\x1b[1;38;5;0m".data, true) := by
  refine ⟨by decide, by decide, by decide, by decide, by decide, by decide⟩

/-- C10, amended: a single dash-free token resolves (found = true) if and only
if it is a fixed keyword (plain, bold/bolded, underline/underlined,
reverse/reversed), or a string of one or more decimal digits, optionally
preceded by `+`, whose value n is below `2^63` (so also an integer above 255),
or a name of the fixed table spelled with exactly the table's bytes; every
other token (a differently-cased name, the empty token) fails to resolve.  A
numeric token of value n resolves to `makeColorString(n)`, which for every
n >= 16, also above 255, is the extended sequence `ESC[1;38;5;` + (n mod 256)
in decimal + `m`. -/
theorem makeANSIEscapeFromName_found_iff (t : GoString) (hdash : '-' ∉ t) :
    ((makeANSIEscapeFromName t).2 = true ↔
      t ∈ keywords ∨
      (∃ ds : GoString, (t = ds ∨ t = '+' :: ds) ∧ ds ≠ [] ∧
        (∀ c ∈ ds, isDigit c = true) ∧ decimalValue ds < 2 ^ 63) ∨
      t ∈ namesAndCodes.map (fun p => p.name)) ∧
    (∀ ds : GoString, (t = ds ∨ t = '+' :: ds) → ds ≠ [] →
      (∀ c ∈ ds, isDigit c = true) → decimalValue ds < 2 ^ 63 →
      makeANSIEscapeFromName t = (makeColorString (decimalValue ds : Int), true) ∧
      (16 ≤ decimalValue ds →
        makeColorString (decimalValue ds : Int) =
          "\x1b[1;38;5;".data ++ Nat.toDigits 10 (decimalValue ds % 256) ++ "m".data)) := by
  constructor
  · rw [makeANSIEscapeFromName_found, makeColorCodeFromName_found, Atoi_isSome t hdash]
  · intro ds ht hne hall hv
    exact ⟨makeANSIEscapeFromName_of_Atoi t _ (numeric_not_keyword t ds ht hne hall)
        (Atoi_eq t ds ht hne hall hv),
      makeColorString_extended (decimalValue ds)⟩

theorem makeANSIEscapeFromName_found_iff_witness :
    ('-' ∉ "orchid".data ∧ (makeANSIEscapeFromName "orchid".data).2 = true) ∧
    ('-' ∉ "256".data ∧
      makeANSIEscapeFromName "256".data = ("\x1b[1;38;5;0m".data, true)) ∧
    ('-' ∉ "9".data ∧ makeANSIEscapeFromName "9".data = ("\x1b[1;31m".data, true)) :=
  ⟨⟨by decide,
      (makeANSIEscapeFromName_found_iff "orchid".data (by decide)).1.mpr
        (Or.inr (Or.inr (by decide)))⟩,
    ⟨by decide,
      ((makeANSIEscapeFromName_found_iff "256".data (by decide)).2 "256".data (Or.inl rfl)
        (by decide) (by decide) (by decide)).1.trans (by decide)⟩,
    ⟨by decide,
      ((makeANSIEscapeFromName_found_iff "9".data (by decide)).2 "9".data (Or.inl rfl)
        (by decide) (by decide) (by decide)).1.trans (by decide)⟩⟩

/-! ## The colour encoder: numeric codes and the table -/

/-- C11: numeric colour encoding: for every code i with `0 <= i <= 15`,
`makeColorString(i)` is the 16-colour sequence `ESC [ b ; h m` with bright bit
`b = i div 8` (0 or 1) and hue `h = 30 + (i mod 8)` (one of 30..37), both in
decimal; for every code i with `16 <= i <= 255` it is the extended sequence
`ESC [1;38;5; i m` carrying the code i in decimal. -/
theorem makeColorString_encoding (i : Int) :
    (0 ≤ i → i ≤ 15 →
      makeColorString i =
          "\x1b[".data ++ Nat.toDigits 10 (i / 8).toNat ++ ";".data ++
            Nat.toDigits 10 (30 + i % 8).toNat ++ "m".data ∧
        (i / 8 = 0 ∨ i / 8 = 1) ∧ 30 ≤ 30 + i % 8 ∧ 30 + i % 8 ≤ 37) ∧
    (16 ≤ i → i ≤ 255 →
      makeColorString i = "\x1b[1;38;5;".data ++ Nat.toDigits 10 i.toNat ++ "m".data) := by
  constructor
  · intro h0 h15
    interval_cases i <;> decide
  · intro h16 h255
    have hmod : i % 256 % 256 = i := by omega
    unfold makeColorString
    rw [if_neg (by omega)]
    unfold make256ColorString fmtInt
    simp only [hmod]
    rw [if_neg (by omega)]

theorem makeColorString_encoding_witness :
    makeColorString 9 = "\x1b[1;31m".data ∧
    makeColorString 170 = "\x1b[1;38;5;170m".data :=
  ⟨((makeColorString_encoding 9).1 (by decide) (by decide)).1.trans (by decide),
    ((makeColorString_encoding 170).2 (by decide) (by decide)).trans (by decide)⟩

theorem namesAndCodes_facts :
    ∀ p ∈ namesAndCodes,
      0 ≤ p.code ∧ p.code ≤ 255 ∧ p.name ∉ keywords ∧ Atoi p.name = none := by
  decide

theorem namesAndCodes_entries_resolve :
    ∀ p ∈ namesAndCodes,
      makeANSIEscapeFromName p.name = (makeColorString p.code, true) ∧
      makeANSIEscapeFromName (fmtInt p.code) = (makeColorString p.code, true) := by
  decide

/-- C12: for every entry (name, code) of the table `namesAndCodes`,
`0 <= code <= 255` and resolving the token name gives
`(makeColorString(code), true)`, the same fragment as resolving the decimal
string of code; "orchid" resolves to the fragment of code 170, and each example
name of the usage text (red, yellow, green, orchid, 9, 11, 2, 170) resolves. -/
theorem namesAndCodes_resolve (p : tNameAndCode) (hp : p ∈ namesAndCodes) :
    (0 ≤ p.code ∧ p.code ≤ 255 ∧
      makeANSIEscapeFromName p.name = (makeColorString p.code, true) ∧
      makeANSIEscapeFromName p.name = makeANSIEscapeFromName (fmtInt p.code)) ∧
    makeANSIEscapeFromName "orchid".data = (makeColorString 170, true) ∧
    (∀ t ∈ ["red".data, "yellow".data, "green".data, "orchid".data, "9".data, "11".data,
        "2".data, "170".data], (makeANSIEscapeFromName t).2 = true) := by
  have h1 := namesAndCodes_facts p hp
  have h2 := namesAndCodes_entries_resolve p hp
  refine ⟨⟨h1.1, h1.2.1, h2.1, ?_⟩, by decide, by decide⟩
  rw [h2.1, h2.2]

theorem namesAndCodes_resolve_witness :
    tNameAndCode.mk "orchid".data 170 ∈ namesAndCodes ∧
    makeANSIEscapeFromName "orchid".data = ("\x1b[1;38;5;170m".data, true) ∧
    makeANSIEscapeFromName "170".data = ("\x1b[1;38;5;170m".data, true) :=
  ⟨by decide,
    (namesAndCodes_resolve (tNameAndCode.mk "orchid".data 170) (by decide)).1.2.2.1.trans
      (by decide),
    by decide⟩

/-! ## The line highlighter: length and failure -/

theorem wellFormedFrom_le (n : Int) :
    ∀ (ivs : List (Int × Int)) (pos : Int), WellFormedFrom n pos ivs → pos ≤ n
  | [], _, h => h
  | iv :: ivs, _, h => le_trans (le_trans h.1 h.2.1) (wellFormedFrom_le n ivs iv.2 h.2.2)

theorem wellFormed_of_wellFormedFrom (n : Int) :
    ∀ (ivs : List (Int × Int)) (pos : Int), 0 ≤ pos → WellFormedFrom n pos ivs →
      WellFormed n ivs
  | [], _, _, _ => ⟨by simp, List.chain'_nil⟩
  | iv :: ivs, pos, h0, h => by
    obtain ⟨h1, h2, h3⟩ := h
    have h0' : 0 ≤ iv.2 := le_trans (le_trans h0 h1) h2
    obtain ⟨hall, hch⟩ := wellFormed_of_wellFormedFrom n ivs iv.2 h0' h3
    constructor
    · intro x hx
      rcases List.mem_cons.mp hx with e | e
      · subst e
        exact ⟨le_trans h0 h1, h2, wellFormedFrom_le n ivs _ h3⟩
      · exact hall x e
    · rw [List.chain'_cons']
      refine ⟨?_, hch⟩
      intro y hy
      cases ivs with
      | nil => simp at hy
      | cons z zs =>
        simp only [List.head?_cons, Option.mem_def, Option.some.injEq] at hy
        subst hy
        exact h3.1

theorem wellFormed_iff_wellFormedFrom (n : Int) (hn : 0 ≤ n) (ivs : List (Int × Int)) :
    WellFormed n ivs ↔ WellFormedFrom n 0 ivs :=
  ⟨wellFormedFrom_zero n ivs hn, wellFormed_of_wellFormedFrom n ivs 0 le_rfl⟩

theorem slice_error (L : GoString) (a b : Int)
    (h : ¬ (0 ≤ a ∧ a ≤ b ∧ b ≤ (L.length : Int))) :
    slice L a b = .error .sliceBoundsOutOfRange := by
  unfold slice
  rw [if_neg h]

/-- The loop, started on intervals that are not well-formed from the cursor,
runs into a slice expression that is out of range. -/
theorem luminLoop_error (S L : GoString) :
    ∀ (ivs : List (Int × Int)) (pos : Int) (buf : GoString), 0 ≤ pos →
      ¬ WellFormedFrom (L.length : Int) pos ivs →
      luminLoop S L ivs pos buf = .error .sliceBoundsOutOfRange
  | [], pos, buf, _, h => by
    have : ¬ pos ≤ (L.length : Int) := h
    simp only [luminLoop, sliceFrom]
    rw [slice_error L pos _ (fun hh => this hh.2.1)]
    rfl
  | iv :: ivs, pos, buf, h0, h => by
    simp only [luminLoop]
    by_cases c1 : 0 ≤ pos ∧ pos ≤ iv.1 ∧ iv.1 ≤ (L.length : Int)
    · rw [slice_ok L pos iv.1 c1.1 c1.2.1 c1.2.2]
      by_cases c2 : 0 ≤ iv.1 ∧ iv.1 ≤ iv.2 ∧ iv.2 ≤ (L.length : Int)
      · rw [slice_ok L iv.1 iv.2 c2.1 c2.2.1 c2.2.2]
        simp only [bind, Except.bind]
        apply luminLoop_error S L ivs iv.2 _ (le_trans c2.1 c2.2.1)
        intro h3
        exact h ⟨c1.2.1, c2.2.1, h3⟩
      · rw [slice_error L iv.1 iv.2 c2]
        rfl
    · rw [slice_error L pos iv.1 c1]
      rfl

theorem spans_length (L S E : GoString) :
    ∀ (ivs : List (Int × Int)) (pos : Int),
      (spans L S E pos ivs).length =
        (spans L [] [] pos ivs).length + ivs.length * (S.length + E.length)
  | [], _ => by simp [spans]
  | iv :: ivs, pos => by
    simp only [spans, List.length_append, List.length_cons, List.length_nil,
      spans_length L S E ivs iv.2]
    ring

theorem interleave_length (L S E : GoString) (ivs : List (Int × Int))
    (hwf : WellFormed (L.length : Int) ivs) :
    (interleave L S E ivs).length = L.length + ivs.length * (S.length + E.length) := by
  have hplain := congrArg List.length
    (spans_plain L (L.length : Int) ivs 0 (wellFormedFrom_zero _ ivs (Int.ofNat_nonneg _) hwf))
  simp only [List.length_append, Int.toNat_zero, List.drop_zero] at hplain
  unfold interleave
  rw [List.length_append, spans_length L S E ivs 0]
  omega

/-- C17: length accounting: for every line L, start marker S and valid ordered
non-overlapping list of k intervals (nil and empty included), `luminLine`
returns an output of length `len(L) + k * (len(S) + len(E))`, where E is the
end marker; the output is never shorter than the input, and it has the length
of the input only when k = 0 or both markers are empty. -/
theorem luminLine_length (S L : GoString) (re : Regexp)
    (hwf : WellFormed (L.length : Int) ((re L).getD [])) :
    ∃ out, luminLine S (some re) L = .ok out ∧
      out.length =
        L.length + ((re L).getD []).length * (S.length + DefaultColorString.length) ∧
      L.length ≤ out.length ∧
      (out.length = L.length →
        ((re L).getD []).length = 0 ∨ (S = [] ∧ DefaultColorString = [])) := by
  have hE : DefaultColorString.length = 4 := by decide
  cases hm : re L with
  | none =>
    exact ⟨L, luminLine_eq_input S L re (Or.inl hm), by simp, le_rfl, fun _ => Or.inl (by simp)⟩
  | some ivs =>
    rw [hm] at hwf
    have hlen := interleave_length L S DefaultColorString ivs hwf
    refine ⟨_, luminLine_eq_interleave S L re ivs hm hwf, ?_, ?_, ?_⟩
    · simpa using hlen
    · rw [hlen]
      exact Nat.le_add_right _ _
    · intro h
      left
      rw [hlen, hE] at h
      simp only [Option.getD_some]
      have h0 : ivs.length * (S.length + 4) = 0 := by omega
      rcases Nat.mul_eq_zero.mp h0 with h1 | h1
      · exact h1
      · omega

theorem luminLine_length_witness :
    WellFormed ("abc foo def foo ghi".data.length : Int)
      ((some [(4, 7), (12, 15)] : Option _).getD []) ∧
    ∃ out, luminLine defaultHighlight (some (fun _ => some [(4, 7), (12, 15)]))
        "abc foo def foo ghi".data = .ok out ∧
      out.length = 19 + 2 * (13 + 4) :=
  ⟨by decide,
    (luminLine_length defaultHighlight "abc foo def foo ghi".data
      (fun _ => some [(4, 7), (12, 15)]) (by decide)).elim
      (fun out h => ⟨out, h.1, h.2.1.trans (by decide)⟩)⟩

/-- C18: fail-fast on ill-formed intervals: for every line L and interval list
that violates the precondition (some start below the previous end or below 0,
some start above its end, or some end above `len(L)`), `luminLine` takes the
slice-out-of-range branch and returns no string; hence `luminLine` returns a
string if and only if the interval list is well-formed, and then the string
is the specification's interleaving: no corrupted text is emitted. -/
theorem luminLine_fail_fast (S L : GoString) (re : Regexp) :
    (¬ WellFormed (L.length : Int) ((re L).getD []) →
      luminLine S (some re) L = .error .sliceBoundsOutOfRange) ∧
    ((∃ out, luminLine S (some re) L = .ok out) ↔
      WellFormed (L.length : Int) ((re L).getD [])) ∧
    (∀ out, luminLine S (some re) L = .ok out →
      out = interleave L S DefaultColorString ((re L).getD [])) := by
  have herr : ¬ WellFormed (L.length : Int) ((re L).getD []) →
      luminLine S (some re) L = .error .sliceBoundsOutOfRange := by
    intro hnwf
    cases hm : re L with
    | none =>
      rw [hm] at hnwf
      exact absurd (show WellFormed (L.length : Int) [] from ⟨by simp, List.chain'_nil⟩) hnwf
    | some ivs =>
      rw [hm] at hnwf
      simp only [Option.getD_some] at hnwf
      cases ivs with
      | nil => exact absurd ⟨by simp, List.chain'_nil⟩ hnwf
      | cons iv rest =>
        unfold luminLine
        simp only [hm]
        apply luminLoop_error S L (iv :: rest) 0 [] le_rfl
        intro h
        exact hnwf (wellFormed_of_wellFormedFrom _ _ 0 le_rfl h)
  have hok : WellFormed (L.length : Int) ((re L).getD []) →
      luminLine S (some re) L = .ok (interleave L S DefaultColorString ((re L).getD [])) := by
    intro hwf
    cases hm : re L with
    | none =>
      rw [luminLine_eq_input S L re (Or.inl hm)]
      simp [interleave, spans, lastEnd]
    | some ivs =>
      rw [hm] at hwf
      exact luminLine_eq_interleave S L re ivs hm hwf
  refine ⟨herr, ⟨?_, fun hwf => ⟨_, hok hwf⟩⟩, ?_⟩
  · rintro ⟨out, hout⟩
    by_contra hnwf
    rw [herr hnwf] at hout
    cases hout
  · intro out hout
    by_cases hwf : WellFormed (L.length : Int) ((re L).getD [])
    · rw [hok hwf] at hout
      cases hout
      rfl
    · rw [herr hwf] at hout
      cases hout

theorem luminLine_fail_fast_witness :
    luminLine defaultHighlight (some (fun _ => some [(4, 7), (6, 9)])) "abc foo def".data =
      .error .sliceBoundsOutOfRange ∧
    luminLine defaultHighlight (some (fun _ => some [(-1, 2)])) "abc foo def".data =
      .error .sliceBoundsOutOfRange ∧
    luminLine defaultHighlight (some (fun _ => some [(5, 4)])) "abc foo def".data =
      .error .sliceBoundsOutOfRange ∧
    luminLine defaultHighlight (some (fun _ => some [(4, 12)])) "abc foo def".data =
      .error .sliceBoundsOutOfRange :=
  ⟨(luminLine_fail_fast defaultHighlight "abc foo def".data
      (fun _ => some [(4, 7), (6, 9)])).1 (by decide),
    (luminLine_fail_fast defaultHighlight "abc foo def".data
      (fun _ => some [(-1, 2)])).1 (by decide),
    (luminLine_fail_fast defaultHighlight "abc foo def".data
      (fun _ => some [(5, 4)])).1 (by decide),
    (luminLine_fail_fast defaultHighlight "abc foo def".data
      (fun _ => some [(4, 12)])).1 (by decide)⟩

/-! ## Colour selection and the command line: helper lemmas -/

theorem getoptifyLoop_append :
    ∀ (inargs outargs : List GoString),
      getoptifyLoop inargs outargs = outargs ++ getoptifyLoop inargs []
  | [], outargs => by simp [getoptifyLoop]
  | inarg :: rest, outargs => by
    simp only [getoptifyLoop]
    split
    · rw [getoptifyLoop_append rest (outargs ++ _), getoptifyLoop_append rest ([] ++ _)]
      simp
    · split
      · rw [getoptifyLoop_append rest (outargs ++ _), getoptifyLoop_append rest ([] ++ _)]
        simp
      · rw [getoptifyLoop_append rest (outargs ++ _), getoptifyLoop_append rest ([] ++ _)]
        simp

theorem getoptify_cons (a : GoString) (rest : List GoString) :
    getoptify (a :: rest) = getoptify [a] ++ getoptify rest := by
  unfold getoptify
  simp only [getoptifyLoop]
  split
  · rw [getoptifyLoop_append rest]
  · split
    · rw [getoptifyLoop_append rest]
    · rw [getoptifyLoop_append rest]

theorem getoptify_append :
    ∀ (xs ys : List GoString), getoptify (xs ++ ys) = getoptify xs ++ getoptify ys
  | [], ys => by simp [getoptify, getoptifyLoop]
  | x :: xs, ys => by
    rw [List.cons_append, getoptify_cons, getoptify_append xs ys, getoptify_cons x xs,
      List.append_assoc]

/-- Arguments that `getoptify` leaves alone one by one are left alone together. -/
theorem getoptify_fixed :
    ∀ xs : List GoString, (∀ a ∈ xs, getoptify [a] = [a]) → getoptify xs = xs
  | [], _ => rfl
  | x :: xs, h => by
    rw [getoptify_cons, h x (by simp),
      getoptify_fixed xs (fun a ha => h a (List.mem_cons_of_mem _ ha))]
    rfl

theorem takeWhile_ne_append (c : Char) :
    ∀ (k v : GoString), c ∉ k → (k ++ c :: v).takeWhile (fun x => x != c) = k
  | [], v, _ => by simp
  | x :: k, v, h => by
    have hx : x ≠ c := fun e => h (by simp [e])
    have hk : c ∉ k := fun e => h (List.mem_cons_of_mem _ e)
    simp [List.takeWhile_cons, hx, takeWhile_ne_append c k v hk]

theorem dropWhile_ne_append (c : Char) :
    ∀ (k v : GoString), c ∉ k → (k ++ c :: v).dropWhile (fun x => x != c) = c :: v
  | [], v, _ => by simp
  | x :: k, v, h => by
    have hx : x ≠ c := fun e => h (by simp [e])
    have hk : c ∉ k := fun e => h (List.mem_cons_of_mem _ e)
    simp [List.dropWhile_cons, hx, dropWhile_ne_append c k v hk]

theorem not_mem_takeWhile_ne (c : Char) :
    ∀ l : GoString, c ∉ l.takeWhile (fun x => x != c)
  | [] => by simp
  | x :: l => by
    by_cases hx : x = c
    · simp [List.takeWhile_cons, hx]
    · have := not_mem_takeWhile_ne c l
      simp [List.takeWhile_cons, hx, this]
      exact fun e => hx e.symm

/-- A string is the bytes before its first `c`, then what starts at that `c`;
what starts there is empty or begins with `c`. -/
theorem dropWhile_ne_head (c : Char) :
    ∀ l : GoString, l.dropWhile (fun x => x != c) = [] ∨
      ∃ v, l.dropWhile (fun x => x != c) = c :: v
  | [] => Or.inl rfl
  | x :: l => by
    by_cases hx : x = c
    · right
      exact ⟨l, by simp [List.dropWhile_cons, hx]⟩
    · simpa [List.dropWhile_cons, hx] using dropWhile_ne_head c l

theorem expandRegexMatch_iff (a : GoString) :
    expandRegexMatch a = true ↔
      ∃ cs : GoString, a = '-' :: cs ∧ cs ≠ [] ∧ ∀ c ∈ cs, isAlnum c = true := by
  cases a with
  | nil => simp [expandRegexMatch]
  | cons c cs =>
    simp only [expandRegexMatch, Bool.and_eq_true, decide_eq_true_eq, Bool.not_eq_true',
      List.isEmpty_eq_false, List.all_eq_true, List.cons.injEq]
    constructor
    · rintro ⟨⟨h1, h2⟩, h3⟩
      exact ⟨cs, ⟨h1, rfl⟩, h2, h3⟩
    · rintro ⟨cs', ⟨h1, h2⟩, h3, h4⟩
      subst h2
      exact ⟨⟨h1, h3⟩, h4⟩

theorem splitRegexMatch_iff (a : GoString) :
    splitRegexMatch a = true ↔
      ∃ k v : GoString, a = '-' :: '-' :: (k ++ '=' :: v) ∧ k ≠ [] ∧ '=' ∉ k ∧
        v ≠ [] ∧ '\n' ∉ v := by
  constructor
  · intro h
    match a, h with
    | c :: d :: rest, h =>
      simp only [splitRegexMatch, Bool.and_eq_true, decide_eq_true_eq, Bool.not_eq_true',
        List.isEmpty_eq_false] at h
      obtain ⟨⟨⟨hc, hd⟩, hk⟩, hv⟩ := h
      subst hc
      subst hd
      have hsplit := List.takeWhile_append_dropWhile (fun x => x != '=') rest
      rcases dropWhile_ne_head '=' rest with h0 | ⟨v, hv'⟩
      · rw [h0] at hv
        simp at hv
      · rw [hv'] at hv hsplit
        simp only [Bool.and_eq_true, Bool.not_eq_true', List.isEmpty_eq_false,
          List.all_eq_true, bne_iff_ne, ne_eq] at hv
        refine ⟨rest.takeWhile (fun x => x != '='), v, by rw [hsplit], hk,
          not_mem_takeWhile_ne '=' rest, hv.1, fun hm => hv.2 _ hm rfl⟩
  · rintro ⟨k, v, rfl, hk, hkeq, hv, hvn⟩
    simp only [splitRegexMatch, takeWhile_ne_append '=' k v hkeq,
      dropWhile_ne_append '=' k v hkeq, Bool.and_eq_true, decide_eq_true_eq,
      Bool.not_eq_true', List.isEmpty_eq_false, List.all_eq_true, bne_iff_ne, ne_eq,
      true_and]
    exact ⟨hk, hv, fun x hx e => hvn (e ▸ hx)⟩

theorem getoptify_expand (cs : GoString) (hne : cs ≠ [])
    (hall : ∀ c ∈ cs, isAlnum c = true) :
    getoptify ['-' :: cs] = cs.map (fun c => ['-', c]) := by
  have hm : expandRegexMatch ('-' :: cs) = true :=
    (expandRegexMatch_iff _).mpr ⟨cs, rfl, hne, hall⟩
  simp [getoptify, getoptifyLoop, hm]

theorem getoptify_split (k v : GoString) (hk : k ≠ []) (hkeq : '=' ∉ k) (hv : v ≠ [])
    (hvn : '\n' ∉ v) :
    getoptify ['-' :: '-' :: (k ++ '=' :: v)] = ['-' :: '-' :: k, v] := by
  have he : expandRegexMatch ('-' :: '-' :: (k ++ '=' :: v)) = false := by
    simp [expandRegexMatch, isAlnum]
  have hm : splitRegexMatch ('-' :: '-' :: (k ++ '=' :: v)) = true :=
    (splitRegexMatch_iff _).mpr ⟨k, v, rfl, hk, hkeq, hv, hvn⟩
  have hkeq' : '=' ∉ '-' :: '-' :: k := by
    simp only [List.mem_cons, not_or]
    exact ⟨by decide, by decide, hkeq⟩
  have ht := takeWhile_ne_append '=' ('-' :: '-' :: k) v hkeq'
  have hd := dropWhile_ne_append '=' ('-' :: '-' :: k) v hkeq'
  simp only [List.cons_append] at ht hd
  simp [getoptify, getoptifyLoop, he, hm, stringsSplitN2, ht, hd]

theorem getoptify_other (a : GoString) (h1 : expandRegexMatch a = false)
    (h2 : splitRegexMatch a = false) : getoptify [a] = [a] := by
  simp [getoptify, getoptifyLoop, h1, h2]

/-- After `--` the next argument is the pattern and the others are the
filenames, whenever `getoptify` leaves the program name, the pattern and the
filenames alone. -/
theorem mainOptions_end_of_options (prog p : GoString) (fs : List GoString)
    (h : ∀ a ∈ prog :: p :: fs, getoptify [a] = [a]) :
    mainOptions [] (prog :: "--".data :: p :: fs) = .run false false defaultHighlight p fs := by
  have hfix : getoptify (prog :: "--".data :: p :: fs) = prog :: "--".data :: p :: fs := by
    apply getoptify_fixed
    intro a ha
    rcases List.mem_cons.mp ha with e | e
    · exact h a (by simp [e])
    · rcases List.mem_cons.mp e with e' | e'
      · subst e'
        decide
      · exact h a (List.mem_cons_of_mem _ e')
  unfold mainOptions
  rw [hfix]
  rfl

/-! ## Colour selection and the command line: claims -/

/-- C13, evaluated on the code: with the argument vector `lumin -- -x foo.txt`
of the usage text the pattern is `-x` and the file is `foo.txt`, but with
`lumin -- -xy foo.txt` the pattern is `-x` and the filenames are `-y` and
`foo.txt`: `getoptify` has expanded the pattern `-xy` before the option loop
looked for `--`.  A filename after the pattern is expanded in the same way. -/
theorem mainOptions_pattern_expanded :
    mainOptions [] ["lumin".data, "--".data, "-x".data, "foo.txt".data] =
      .run false false defaultHighlight "-x".data ["foo.txt".data] ∧
    mainOptions [] ["lumin".data, "--".data, "-xy".data, "foo.txt".data] =
      .run false false defaultHighlight "-x".data ["-y".data, "foo.txt".data] ∧
    mainOptions [] ["lumin".data, "--".data, "foo".data, "-ab".data] =
      .run false false defaultHighlight "foo".data ["-a".data, "-b".data] ∧
    mainOptions [] ["lumin".data, "--".data, "--a=b".data, "foo.txt".data] =
      .run false false defaultHighlight "--a".data ["b".data, "foo.txt".data] := by
  refine ⟨by decide, by decide, by decide, by decide⟩

/-- C14, evaluated on the code: when the pattern fails to compile and the input
can be opened, `main` does not exit with 1: it calls `luminStream` with the
nil matcher; with an input of no lines it exits with 0, with any other input
the first line dereferences the nil pointer. -/
theorem mainRun_compile_failure (compile : GoString → Option Regexp)
    (openFiles : List GoString → Option GoString) (w i : Bool)
    (hs pattern : GoString) (filenames : List GoString) (istream : GoString)
    (hc : compile (decoratePattern w i pattern) = none)
    (ho : openFiles filenames = some istream) :
    mainRun compile openFiles w i hs pattern filenames =
      (match luminStream hs none istream with
        | (stdout, some p) => .panic p stdout
        | (stdout, none) => .exit 0 stdout) ∧
    mainRun compile openFiles w i hs pattern filenames =
      (if scanLines istream [] = [] then .exit 0 []
        else .panic .nilPointerDereference []) := by
  have h1 : mainRun compile openFiles w i hs pattern filenames =
      (match luminStream hs none istream with
        | (stdout, some p) => .panic p stdout
        | (stdout, none) => .exit 0 stdout) := by
    unfold mainRun
    simp only [hc, ho]
  refine ⟨h1, ?_⟩
  rw [h1]
  unfold luminStream
  cases hl : scanLines istream [] with
  | nil => simp [luminLines]
  | cons l ls => simp [luminLines, luminLine]

theorem mainRun_compile_failure_witness :
    mainRun (fun _ => none) (fun _ => some "abc foo\n".data) false false defaultHighlight
        "(".data [] = .panic .nilPointerDereference [] ∧
    mainRun (fun _ => none) (fun _ => some []) false false defaultHighlight
        "(".data [] = .exit 0 [] :=
  ⟨(mainRun_compile_failure (fun _ => none) (fun _ => some "abc foo\n".data) false false
      defaultHighlight "(".data [] "abc foo\n".data rfl rfl).2.trans (by decide),
    (mainRun_compile_failure (fun _ => none) (fun _ => some []) false false
      defaultHighlight "(".data [] [] rfl rfl).2.trans (by decide)⟩

/-- C19: `setColor` is atomic on failure: for every name and every current
value of the highlight start marker, if the name does not resolve then
`setColor` returns false and leaves the start marker unchanged; if it
resolves, `setColor` returns true and the start marker becomes exactly the
resolved escape string. -/
theorem setColor_atomic (highlightStartString name : GoString) :
    ((MakeANSIEscapesFromName name).2 = false →
      setColor highlightStartString name = (highlightStartString, false)) ∧
    ((MakeANSIEscapesFromName name).2 = true →
      setColor highlightStartString name = ((MakeANSIEscapesFromName name).1, true)) := by
  unfold setColor
  cases h : MakeANSIEscapesFromName name with
  | mk escape ok => cases ok <;> simp

theorem setColor_atomic_witness :
    setColor defaultHighlight "bold-nosuch".data = (defaultHighlight, false) ∧
    setColor defaultHighlight "bold-red".data = ("\x1b[1m\x1b[1;31m".data, true) :=
  ⟨(setColor_atomic defaultHighlight "bold-nosuch".data).1 (by decide),
    ((setColor_atomic defaultHighlight "bold-red".data).2 (by decide)).trans (by decide)⟩

/-- C16 as stated fails: the argument `--a=b` followed by a newline byte has the
form `--k=v` with k = `a` (non-empty, without `=`) and v = `b` + newline
(non-empty), and `getoptify` leaves it intact instead of splitting it: the
`.` of the pattern `^--[^=]+=.+$` does not match a newline. -/
theorem getoptify_newline_value_intact :
    "--a=b\n".data = "--".data ++ "a".data ++ "=".data ++ "b\n".data ∧
    "a".data ≠ [] ∧ '=' ∉ "a".data ∧ "b\n".data ≠ [] ∧
    getoptify ["--a=b\n".data] = ["--a=b\n".data] ∧
    getoptify ["--a=b\n".data] ≠ ["--a".data, "b\n".data] := by
  refine ⟨by decide, by decide, by decide, by decide, by decide, by decide⟩

/-- C16, amended: `getoptify`, for every argument list, maps arguments in order:
an argument of the form `-` followed by one or more ASCII letters or digits
`c1..cm` becomes the m arguments `-c1`, ..., `-cm`; an argument of the form
`--k=v` (k non-empty and without `=`, v non-empty and without a newline byte)
becomes the two arguments `--k` and `v`; every other argument, in particular
`--xyz` (two dashes and no `=`) and any argument not starting with a dash, is
left intact. -/
theorem getoptify_spec (pre post : List GoString) :
    (∀ cs : GoString, cs ≠ [] → (∀ c ∈ cs, isAlnum c = true) →
      getoptify (pre ++ ('-' :: cs) :: post) =
        getoptify pre ++ cs.map (fun c => ['-', c]) ++ getoptify post) ∧
    (∀ k v : GoString, k ≠ [] → '=' ∉ k → v ≠ [] → '\n' ∉ v →
      getoptify (pre ++ ("--".data ++ k ++ "=".data ++ v) :: post) =
        getoptify pre ++ ["--".data ++ k, v] ++ getoptify post) ∧
    (∀ a : GoString,
      ¬ (∃ cs : GoString, a = '-' :: cs ∧ cs ≠ [] ∧ ∀ c ∈ cs, isAlnum c = true) →
      ¬ (∃ k v : GoString, a = "--".data ++ k ++ "=".data ++ v ∧ k ≠ [] ∧ '=' ∉ k ∧
          v ≠ [] ∧ '\n' ∉ v) →
      getoptify (pre ++ a :: post) = getoptify pre ++ [a] ++ getoptify post) ∧
    (∀ x : GoString, '=' ∉ x →
      getoptify (pre ++ ("--".data ++ x) :: post) =
        getoptify pre ++ ["--".data ++ x] ++ getoptify post) ∧
    (∀ a : GoString, a.head? ≠ some '-' →
      getoptify (pre ++ a :: post) = getoptify pre ++ [a] ++ getoptify post) := by
  have hform : ∀ k v : GoString,
      "--".data ++ k ++ "=".data ++ v = '-' :: '-' :: (k ++ '=' :: v) := by
    intro k v
    have h2 : "--".data = ['-', '-'] := rfl
    have h1 : "=".data = ['='] := rfl
    rw [h2, h1]
    simp
  have hdd : ∀ x : GoString, "--".data ++ x = '-' :: '-' :: x := fun _ => rfl
  have hsplice : ∀ (a : GoString) (r : List GoString), getoptify [a] = r →
      getoptify (pre ++ a :: post) = getoptify pre ++ r ++ getoptify post := by
    intro a r hr
    rw [getoptify_append, getoptify_cons, hr, List.append_assoc]
  have hother : ∀ a : GoString,
      ¬ (∃ cs : GoString, a = '-' :: cs ∧ cs ≠ [] ∧ ∀ c ∈ cs, isAlnum c = true) →
      ¬ (∃ k v : GoString, a = "--".data ++ k ++ "=".data ++ v ∧ k ≠ [] ∧ '=' ∉ k ∧
          v ≠ [] ∧ '\n' ∉ v) →
      getoptify [a] = [a] := by
    intro a h1 h2
    apply getoptify_other
    · rw [Bool.eq_false_iff]
      exact fun h => h1 ((expandRegexMatch_iff a).mp h)
    · rw [Bool.eq_false_iff]
      intro h
      obtain ⟨k, v, e, hk⟩ := (splitRegexMatch_iff a).mp h
      exact h2 ⟨k, v, by rw [hform]; exact e, hk⟩
  refine ⟨?_, ?_, ?_, ?_, ?_⟩
  · intro cs hne hall
    exact hsplice _ _ (getoptify_expand cs hne hall)
  · intro k v hk hkeq hv hvn
    rw [hform, hdd]
    exact hsplice _ _ (getoptify_split k v hk hkeq hv hvn)
  · intro a h1 h2
    exact hsplice _ _ (hother a h1 h2)
  · intro x hx
    apply hsplice
    apply hother
    · rintro ⟨cs, e, _, hall⟩
      rw [hdd] at e
      simp only [List.cons.injEq, true_and] at e
      have := hall '-' (by rw [← e]; simp)
      exact absurd this (by decide)
    · rintro ⟨k, v, e, _, _, _, _⟩
      rw [hform, hdd] at e
      simp only [List.cons.injEq, true_and] at e
      exact hx (by rw [e]; simp)
  · intro a ha
    apply hsplice
    apply hother
    · rintro ⟨cs, e, _⟩
      exact ha (by rw [e]; rfl)
    · rintro ⟨k, v, e, _⟩
      rw [hform] at e
      exact ha (by rw [e]; rfl)

theorem getoptify_spec_witness :
    getoptify ["lumin".data, "-iw".data, "--color=red".data, "--xyz".data, "foo".data] =
      ["lumin".data, "-i".data, "-w".data, "--color".data, "red".data, "--xyz".data,
        "foo".data] :=
  (((getoptify_spec ["lumin".data] ["--color=red".data, "--xyz".data, "foo".data]).1
      "iw".data (by decide) (by decide)).trans (by decide))

/-! ## The table as a map -/

theorem namesAndCodes_nodup : (namesAndCodes.map (fun p => p.name)).Nodup := by
  decide

theorem lookupName_not_mem (name : GoString) :
    ∀ l : List tNameAndCode, name ∉ l.map (fun p => p.name) →
      lookupName name l = (-1, false)
  | [], _ => rfl
  | q :: l, h => by
    have hq : q.name ≠ name := fun e => h (by simp [e])
    have hl : name ∉ l.map (fun p => p.name) := fun e => h (by simp at e ⊢; exact Or.inr e)
    simp [lookupName, hq, lookupName_not_mem name l hl]

theorem lookupName_mem :
    ∀ (l : List tNameAndCode), (l.map (fun p => p.name)).Nodup →
      ∀ p ∈ l, lookupName p.name l = (p.code, true)
  | [], _, p, hp => by simp at hp
  | q :: l, hnd, p, hp => by
    rw [List.map_cons, List.nodup_cons] at hnd
    unfold lookupName
    rcases List.mem_cons.mp hp with e | e
    · subst e
      simp
    · have hne : q.name ≠ p.name := by
        intro heq
        apply hnd.1
        rw [heq]
        exact List.mem_map_of_mem _ e
      rw [if_neg hne]
      exact lookupName_mem l hnd.2 p e

theorem foldl_update_not_mem (name : GoString) :
    ∀ (l : List tNameAndCode) (m : GoString → Option Int),
      name ∉ l.map (fun p => p.name) →
      l.foldl mapInsert m name = m name
  | [], _, _ => rfl
  | q :: l, m, h => by
    have hq : name ≠ q.name := fun e => h (by simp [e])
    have hl : name ∉ l.map (fun p => p.name) := fun e => h (by simp at e ⊢; exact Or.inr e)
    rw [List.foldl_cons, foldl_update_not_mem name l _ hl]
    exact Function.update_noteq hq _ _

theorem foldl_update_mem :
    ∀ (l : List tNameAndCode) (m : GoString → Option Int),
      (l.map (fun p => p.name)).Nodup → ∀ p ∈ l,
      l.foldl mapInsert m p.name =
        some p.code
  | [], _, _, p, hp => by simp at hp
  | q :: l, m, hnd, p, hp => by
    rw [List.map_cons, List.nodup_cons] at hnd
    rw [List.foldl_cons]
    rcases List.mem_cons.mp hp with e | e
    · subst e
      rw [foldl_update_not_mem p.name l _ hnd.1]
      exact Function.update_same _ _ _
    · exact foldl_update_mem l _ hnd.2 p e

/-- On a table with pairwise distinct names the first-match scan is the lookup
in the map built from the table. -/
theorem lookupName_eq_mapLookup (l : List tNameAndCode)
    (hnd : (l.map (fun p => p.name)).Nodup) (name : GoString) :
    lookupName name l = mapLookup (buildMap l) name := by
  unfold mapLookup buildMap
  by_cases h : name ∈ l.map (fun p => p.name)
  · obtain ⟨p, hp, rfl⟩ := List.mem_map.mp h
    rw [lookupName_mem l hnd p hp, foldl_update_mem l _ hnd p hp]
  · rw [lookupName_not_mem name l h, foldl_update_not_mem name l _ h]

/-- C20: the names in `namesAndCodes` are pairwise distinct, none is a fixed
keyword and none parses as an integer; therefore the linear first-match scan
of `makeColorCodeFromName` returns the same result as a lookup in a
name-to-code map built from the table, for every name, and so does the scan
of the table in any other order; on a name that does not parse as an integer
that is the result of `makeColorCodeFromName`. -/
theorem namesAndCodes_scan_eq_map :
    (namesAndCodes.map (fun p => p.name)).Nodup ∧
    (∀ p ∈ namesAndCodes, p.name ∉ keywords ∧ Atoi p.name = none) ∧
    (∀ name : GoString,
      lookupName name namesAndCodes = mapLookup (buildMap namesAndCodes) name) ∧
    (∀ table : List tNameAndCode, table.Perm namesAndCodes → ∀ name : GoString,
      lookupName name table = mapLookup (buildMap namesAndCodes) name ∧
      buildMap table name = buildMap namesAndCodes name) ∧
    (∀ name : GoString, Atoi name = none →
      makeColorCodeFromName name = mapLookup (buildMap namesAndCodes) name) := by
  have hnd := namesAndCodes_nodup
  have hscan := lookupName_eq_mapLookup namesAndCodes hnd
  have hmap : ∀ table : List tNameAndCode, table.Perm namesAndCodes →
      ∀ name : GoString, buildMap table name = buildMap namesAndCodes name := by
    intro table hperm name
    have hnd' : (table.map (fun p => p.name)).Nodup :=
      (hperm.map (fun p => p.name)).nodup_iff.mpr hnd
    unfold buildMap
    by_cases h : name ∈ table.map (fun p => p.name)
    · obtain ⟨p, hp, rfl⟩ := List.mem_map.mp h
      rw [foldl_update_mem table _ hnd' p hp,
        foldl_update_mem namesAndCodes _ hnd p (hperm.mem_iff.mp hp)]
    · have h' : name ∉ namesAndCodes.map (fun p => p.name) :=
        fun e => h ((hperm.map (fun p => p.name)).mem_iff.mpr e)
      rw [foldl_update_not_mem name table _ h, foldl_update_not_mem name namesAndCodes _ h']
  refine ⟨hnd, fun p hp => (namesAndCodes_facts p hp).2.2, hscan, ?_, ?_⟩
  · intro table hperm name
    have hnd' : (table.map (fun p => p.name)).Nodup :=
      (hperm.map (fun p => p.name)).nodup_iff.mpr hnd
    refine ⟨?_, hmap table hperm name⟩
    rw [lookupName_eq_mapLookup table hnd' name]
    unfold mapLookup
    rw [hmap table hperm name]
  · intro name hname
    unfold makeColorCodeFromName
    rw [hname]
    exact hscan name

/-! ## The stream driver -/

/-- Scanning up to the next newline: the line read so far and the bytes before
the newline are delivered as one line if they fit the buffer, and then the
scanner goes on; if they do not fit, the scanner stops. -/
theorem scanLines_line (rest : GoString) :
    ∀ (pre cur : GoString), '\n' ∉ pre →
      scanLines (pre ++ '\n' :: rest) cur =
        if (cur ++ pre).length < MaxScanTokenSize then dropCR (cur ++ pre) :: scanLines rest []
        else []
  | [], cur, _ => by simp [scanLines]
  | x :: pre, cur, h => by
    have hx : x ≠ '\n' := fun e => h (by simp [e])
    have hpre : '\n' ∉ pre := fun e => h (List.mem_cons_of_mem _ e)
    simp only [List.cons_append, scanLines, List.append_eq]
    rw [if_neg hx, scanLines_line rest pre (cur ++ [x]) hpre]
    simp

theorem scanLines_last :
    ∀ (pre cur : GoString), '\n' ∉ pre →
      scanLines pre cur =
        if cur ++ pre = [] then []
        else if (cur ++ pre).length < MaxScanTokenSize then [dropCR (cur ++ pre)]
        else []
  | [], cur, _ => by simp [scanLines]
  | x :: pre, cur, h => by
    have hx : x ≠ '\n' := fun e => h (by simp [e])
    have hpre : '\n' ∉ pre := fun e => h (List.mem_cons_of_mem _ e)
    simp only [scanLines]
    rw [if_neg hx, scanLines_last pre (cur ++ [x]) hpre]
    simp

theorem dropCR_eq (l : GoString) (h : l.getLast? ≠ some '\r') : dropCR l = l := by
  unfold dropCR
  rw [if_neg h]

theorem trimRightNewlines_eq (l : GoString) (h : '\n' ∉ l) : trimRightNewlines l = l := by
  unfold trimRightNewlines
  cases hr : l.reverse with
  | nil =>
    have hl : l = [] := List.reverse_eq_nil_iff.mp hr
    subst hl
    rfl
  | cons x xs =>
    have hx : x ≠ '\n' := by
      intro e
      apply h
      have : x ∈ l.reverse := by rw [hr]; simp
      rw [← e]
      exact List.mem_reverse.mp this
    rw [List.dropWhile_cons, if_neg (by simpa using hx), ← hr, List.reverse_reverse]

/-- The scanner delivers the lines of a stream one by one and in order, when
every line fits the buffer and none ends in a carriage return; a last line
without terminator is delivered too when it is not empty. -/
theorem scanLines_lines (last : GoString) (hlast : '\n' ∉ last)
    (hcr : last.getLast? ≠ some '\r') (hlen : last.length < MaxScanTokenSize) :
    ∀ lines : List GoString,
      (∀ l ∈ lines, '\n' ∉ l ∧ l.getLast? ≠ some '\r' ∧ l.length < MaxScanTokenSize) →
      scanLines (lines.flatMap (fun l => l ++ ['\n']) ++ last) [] =
        lines ++ (if last = [] then [] else [last])
  | [], _ => by
    rw [List.flatMap_nil, List.nil_append, scanLines_last last [] hlast]
    simp only [List.nil_append]
    by_cases h0 : last = []
    · simp [h0]
    · rw [if_neg h0, if_neg h0, if_pos hlen, dropCR_eq last hcr]
  | l :: lines, h => by
    obtain ⟨h1, h2, h3⟩ := h l (by simp)
    rw [List.flatMap_cons, List.append_assoc, List.append_assoc, List.singleton_append,
      scanLines_line _ l [] h1]
    simp only [List.nil_append]
    rw [if_pos h3, dropCR_eq l h2,
      scanLines_lines last hlast hcr hlen lines (fun x hx => h x (List.mem_cons_of_mem _ hx))]
    rfl

theorem luminLines_ok (hs : GoString) (regex : Option Regexp) (f : GoString → GoString) :
    ∀ (lines : List GoString) (stdout : GoString),
      (∀ l ∈ lines, '\n' ∉ l ∧ luminLine hs regex l = .ok (f l)) →
      luminLines hs regex lines stdout =
        (stdout ++ lines.flatMap (fun l => f l ++ ['\n']), none)
  | [], stdout, _ => by simp [luminLines]
  | l :: lines, stdout, h => by
    obtain ⟨h1, h2⟩ := h l (by simp)
    simp only [luminLines]
    rw [trimRightNewlines_eq l h1, h2]
    simp only []
    rw [luminLines_ok hs regex f lines _ (fun x hx => h x (List.mem_cons_of_mem _ hx))]
    simp

/-- What holds of the stream driver: on a stream of lines that all fit the
scanner's buffer and do not end in a carriage return, the last one with or
without a terminator, `luminStream` writes `luminLine` of each line followed by
a newline, in input order. -/
theorem luminStream_short_lines (hs : GoString) (regex : Option Regexp)
    (f : GoString → GoString) (lines : List GoString) (last : GoString)
    (h : ∀ l ∈ lines ++ [last],
      '\n' ∉ l ∧ l.getLast? ≠ some '\r' ∧ l.length < MaxScanTokenSize ∧
        luminLine hs regex l = .ok (f l)) :
    luminStream hs regex (lines.flatMap (fun l => l ++ ['\n']) ++ last) =
      ((lines ++ (if last = [] then [] else [last])).flatMap (fun l => f l ++ ['\n']),
        none) := by
  obtain ⟨h1, h2, h3, _⟩ := h last (by simp)
  unfold luminStream
  rw [scanLines_lines last h1 h2 h3 lines
    (fun l hl => ⟨(h l (by simp [hl])).1, (h l (by simp [hl])).2.1, (h l (by simp [hl])).2.2.1⟩),
    luminLines_ok hs regex f _ []]
  · simp
  · intro l hl
    have hl' : l ∈ lines ++ [last] := by
      rcases List.mem_append.mp hl with e | e
      · exact List.mem_append_left _ e
      · by_cases h0 : last = []
        · simp [h0] at e
        · simp only [h0, if_false, List.mem_singleton] at e
          simp [e]
    exact ⟨(h l hl').1, (h l hl').2.2.2⟩

/-- C15, evaluated on the code: on the stream made of a first line of 65536
bytes `a`, a newline, the line `foo` and a newline, `luminStream` writes
nothing and ends without a panic (and returns a nil error): the scanner stops
at the line that does not fit its buffer, and the lines from there on are
lost.  On the same stream after the line `ok` only `ok` is written. -/
theorem luminStream_long_line_lost (hs : GoString) (regex : Option Regexp) :
    luminStream hs regex (List.replicate MaxScanTokenSize 'a' ++ '\n' :: "foo\n".data) =
      ([], none) ∧
    luminStream hs (some (fun _ => none))
        ("ok".data ++ '\n' :: (List.replicate MaxScanTokenSize 'a' ++ '\n' :: "foo\n".data)) =
      ("ok\n".data, none) := by
  have hrep : '\n' ∉ List.replicate MaxScanTokenSize 'a' := by
    intro h
    exact absurd (List.eq_of_mem_replicate h) (by decide)
  have hscan : scanLines (List.replicate MaxScanTokenSize 'a' ++ '\n' :: "foo\n".data) [] =
      [] := by
    rw [scanLines_line _ _ [] hrep, if_neg]
    simp
  constructor
  · unfold luminStream
    rw [hscan]
    rfl
  · unfold luminStream
    rw [scanLines_line _ "ok".data [] (by decide), if_pos (by decide), hscan]
    rfl

end Lumin
